import Mathlib

/-!
Verification development for the swap-driven reward controller
(src/scripts/controller/reward_controller_amm_swaps.js) and the legacy
balance-based controller (src/scripts/controller/reward_controller_balance_based.js).

Strings are modelled as lists of UTF-16 code units (`List Nat`), matching the
JavaScript string model.  The external keccak256 hash (ethers.keccak256) is a
parameter `keccak : List Nat → Nat` producing the 256-bit digest value; the
hex digest string returned by ethers is modelled by rendering that value as
`0x` followed by 64 lowercase hex digits, which is exactly ethers' output
format.
-/

namespace RewardController

/-- Lowercasing of a single ASCII code unit, as JS `toLowerCase` acts on the
hex-address alphabet used here. -/
def toLowerCode (c : Nat) : Nat :=
  if 65 ≤ c ∧ c ≤ 90 then c + 32 else c

/-- JS `String.prototype.toLowerCase` on a code-unit list. -/
def toLowerStr (s : List Nat) : List Nat :=
  s.map toLowerCode

/-- Code unit of the lowercase hex digit for a value `d < 16`
(`0`-`9` are 48-57, `a`-`f` are 97-102). -/
def hexDigitCode (d : Nat) : Nat :=
  if d < 10 then 48 + d else 87 + d

/-- Big-endian base-16 digit values of `v`, `n` digits wide. -/
def valDigitsBE : Nat → Nat → List Nat
  | 0, _ => []
  | n + 1, v => v / 16 ^ n :: valDigitsBE n (v % 16 ^ n)

/-- Big-endian fixed-width lowercase hex rendering of `v` as code units. -/
def toHexBE (n v : Nat) : List Nat :=
  (valDigitsBE n v).map hexDigitCode

/-- Numeric value of a hex-digit code unit (`0-9a-fA-F`), if it is one. -/
def hexCharVal (c : Nat) : Option Nat :=
  if 48 ≤ c ∧ c ≤ 57 then some (c - 48)
  else if 97 ≤ c ∧ c ≤ 102 then some (c - 87)
  else if 65 ≤ c ∧ c ≤ 70 then some (c - 55)
  else none

/-- Longest leading run of hex digits, as digit values (the JS `parseInt`
scan that stops at the first non-digit). -/
def hexLeadDigits : List Nat → List Nat
  | [] => []
  | c :: cs =>
    match hexCharVal c with
    | some d => d :: hexLeadDigits cs
    | none => []

/-- JS `parseInt(s, 16)` drops a leading `0x`/`0X` marker
(code units 48,120 / 48,88). -/
def dropHexMark (s : List Nat) : List Nat :=
  match s with
  | c0 :: c1 :: rest => if c0 = 48 ∧ (c1 = 120 ∨ c1 = 88) then rest else s
  | _ => s

/-- JS `parseInt(s, 16)`: strip the optional `0x` marker, read the longest
leading run of hex digits, `none` (NaN) if there is none. -/
def parseInt16 (s : List Nat) : Option Nat :=
  let ds := hexLeadDigits (dropHexMark s)
  if ds = [] then none
  else some (ds.foldl (fun a d => a * 16 + d) 0)

/-- The `0x`-prefixed 64-hex-digit digest string of `keccak s`, as
ethers.keccak256 returns it. -/
def hexDigest (keccak : List Nat → Nat) (s : List Nat) : List Nat :=
  48 :: 120 :: toHexBE 64 (keccak s)

/-- The code unit of `:` used between address and salt. -/
def colonCode : Nat := 58

/-- `cohortBucket` of reward_controller_amm_swaps.js (lines 216-220):
hash of `lower(address) + ":" + salt`, then `parseInt(h.slice(2, 10), 16) % 100`. -/
def cohortBucket (keccak : List Nat → Nat) (address salt : List Nat) : Nat :=
  let input := toLowerStr address ++ colonCode :: salt
  let h := hexDigest keccak input
  (parseInt16 ((h.drop 2).take 8)).getD 0 % 100

/-- `cohortBucket` of reward_controller_balance_based.js (lines 82-90):
same hash input, but `parseInt(h.slice(0, 10), 16) % 100` where
`h.slice(0, 10)` keeps the `0x` marker. -/
def cohortBucketLegacy (keccak : List Nat → Nat) (address salt : List Nat) : Nat :=
  let addr := toLowerStr address
  let input := addr ++ colonCode :: salt
  let h := hexDigest keccak input
  let first4bytes := h.take 10
  (parseInt16 first4bytes).getD 0 % 100

/-- `isInEligibleCohort` of reward_controller_amm_swaps.js (lines 222-228),
with the thrown configuration error modelled as `Except.error`. -/
def isInEligibleCohort (keccak : List Nat → Nat) (address : List Nat)
    (enabled : Bool) (pct : Int) (salt : List Nat) : Except Unit Bool :=
  if enabled = false then .ok true
  else if salt = [] then .error ()
  else if pct ≤ 0 then .ok false
  else if 100 ≤ pct then .ok true
  else .ok (decide ((cohortBucket keccak address salt : Int) < pct))

/-- Boolean form of `isInEligibleCohort`, valid under the startup invariant
(main, lines 318-320) that a salt is present whenever gating is enabled. -/
def isInEligibleCohortB (keccak : List Nat → Nat) (address : List Nat)
    (enabled : Bool) (pct : Int) (salt : List Nat) : Bool :=
  if enabled = false then true
  else if pct ≤ 0 then false
  else if 100 ≤ pct then true
  else decide ((cohortBucket keccak address salt : Int) < pct)

theorem isInEligibleCohort_eq_ok (keccak : List Nat → Nat) (address : List Nat)
    (enabled : Bool) (pct : Int) (salt : List Nat)
    (h : enabled = true → salt ≠ []) :
    isInEligibleCohort keccak address enabled pct salt =
      .ok (isInEligibleCohortB keccak address enabled pct salt) := by
  cases enabled with
  | false => rfl
  | true =>
    have hs := h rfl
    unfold isInEligibleCohort isInEligibleCohortB
    split_ifs <;> simp_all

/- ### Hex digest facts -/

theorem hexCharVal_hexDigitCode {d : Nat} (hd : d < 16) :
    hexCharVal (hexDigitCode d) = some d := by
  unfold hexDigitCode hexCharVal
  split_ifs with h1 h2 h3 h4 h5 h6 h7 <;> (try omega) <;>
    first
    | (congr 1; omega)
    | omega

theorem valDigitsBE_lt {n v : Nat} (hv : v < 16 ^ n) :
    ∀ d ∈ valDigitsBE n v, d < 16 := by
  induction n generalizing v with
  | zero => intro d hd; simp [valDigitsBE] at hd
  | succ n ih =>
    intro d hd
    simp only [valDigitsBE, List.mem_cons] at hd
    rcases hd with h | h
    · subst h
      have : v < 16 ^ n * 16 := by
        have : (16 : Nat) ^ (n + 1) = 16 ^ n * 16 := by ring
        omega
      exact Nat.div_lt_of_lt_mul (by omega)
    · exact ih (Nat.mod_lt _ (Nat.pos_pow_of_pos n (by norm_num))) d h

theorem hexLeadDigits_map_hexDigitCode {ds : List Nat} (h : ∀ d ∈ ds, d < 16) :
    hexLeadDigits (ds.map hexDigitCode) = ds := by
  induction ds with
  | nil => rfl
  | cons d ds ih =>
    simp only [List.map_cons, hexLeadDigits,
      hexCharVal_hexDigitCode (h d (List.mem_cons_self d ds))]
    rw [ih (fun x hx => h x (List.mem_cons_of_mem d hx))]

theorem foldl_valDigitsBE (n : Nat) :
    ∀ v a, v < 16 ^ n →
      (valDigitsBE n v).foldl (fun a d => a * 16 + d) a = a * 16 ^ n + v := by
  induction n with
  | zero => intro v a hv; interval_cases v <;> simp [valDigitsBE]
  | succ n ih =>
    intro v a hv
    have h16 : (0 : Nat) < 16 ^ n := Nat.pos_pow_of_pos n (by norm_num)
    simp only [valDigitsBE, List.foldl_cons]
    rw [ih (v % 16 ^ n) (a * 16 + v / 16 ^ n) (Nat.mod_lt _ h16)]
    have hdm := Nat.div_add_mod v (16 ^ n)
    have hp : (16 : Nat) ^ (n + 1) = 16 ^ n * 16 := by ring
    nlinarith [Nat.div_add_mod v (16 ^ n)]

/-- The hex rendering contains no `x`/`X` marker, so `dropHexMark` is the
identity on it (relevant when the leading `0x` was already sliced away). -/
theorem dropHexMark_toHexBE {n v : Nat} (hn : 2 ≤ n) (hv : v < 16 ^ n) :
    dropHexMark (toHexBE n v) = toHexBE n v := by
  match n, hn with
  | n + 2, _ =>
    have h1 : v / 16 ^ (n + 1) < 16 := by
      have : (16 : Nat) ^ (n + 2) = 16 ^ (n + 1) * 16 := by ring
      exact Nat.div_lt_of_lt_mul (by omega)
    have h2 : v % 16 ^ (n + 1) / 16 ^ n < 16 := by
      have hm : v % 16 ^ (n + 1) < 16 ^ (n + 1) :=
        Nat.mod_lt _ (Nat.pos_pow_of_pos _ (by norm_num))
      have : (16 : Nat) ^ (n + 1) = 16 ^ n * 16 := by ring
      exact Nat.div_lt_of_lt_mul (by omega)
    simp only [toHexBE, valDigitsBE, List.map_cons, dropHexMark]
    have hc : ¬(hexDigitCode (v / 16 ^ (n + 1)) = 48 ∧
        (hexDigitCode (v % 16 ^ (n + 1) / 16 ^ n) = 120 ∨
         hexDigitCode (v % 16 ^ (n + 1) / 16 ^ n) = 88)) := by
      unfold hexDigitCode
      split_ifs <;> omega
    simp [hc]

theorem parseInt16_toHexBE {n v : Nat} (hn : 2 ≤ n) (hv : v < 16 ^ n) :
    parseInt16 (toHexBE n v) = some v := by
  unfold parseInt16
  rw [dropHexMark_toHexBE hn hv]
  unfold toHexBE
  rw [hexLeadDigits_map_hexDigitCode (valDigitsBE_lt hv)]
  have hne : valDigitsBE n v ≠ [] := by
    match n, hn with
    | n + 2, _ => simp [valDigitsBE]
  simp only [hne, if_false]
  rw [foldl_valDigitsBE n v 0 hv]
  simp

theorem take_valDigitsBE {k n v : Nat} (hk : k ≤ n) :
    (valDigitsBE n v).take k = valDigitsBE k (v / 16 ^ (n - k)) := by
  induction k generalizing n v with
  | zero => simp [valDigitsBE]
  | succ k ih =>
    match n, hk with
    | n + 1, hk =>
      have hkn : k ≤ n := by omega
      simp only [valDigitsBE, List.take_succ_cons]
      congr 1
      · rw [Nat.div_div_eq_div_mul, ← pow_add]
        have hx : n + 1 - (k + 1) + k = n := by omega
        rw [hx]
      · rw [ih hkn]
        have hx : n + 1 - (k + 1) = n - k := by omega
        rw [hx, Nat.div_mod_eq_mod_mul_div, ← pow_add]
        have hy : n - k + k = n := by omega
        rw [hy]

theorem take_toHexBE {k n v : Nat} (hk : k ≤ n) :
    (toHexBE n v).take k = toHexBE k (v / 16 ^ (n - k)) := by
  unfold toHexBE
  rw [← List.map_take, take_valDigitsBE hk]

/-- `parseInt(_, 16)` on a string that carries the `0x` marker followed by a
fixed-width hex rendering recovers the rendered value. -/
theorem parseInt16_hexMark {n v : Nat} (hn : 1 ≤ n) (hv : v < 16 ^ n) :
    parseInt16 (48 :: 120 :: toHexBE n v) = some v := by
  unfold parseInt16
  have hd : dropHexMark (48 :: 120 :: toHexBE n v) = toHexBE n v := by
    simp [dropHexMark]
  rw [hd]
  unfold toHexBE
  rw [hexLeadDigits_map_hexDigitCode (valDigitsBE_lt hv)]
  have hne : valDigitsBE n v ≠ [] := by
    match n, hn with
    | n + 1, _ => simp [valDigitsBE]
  simp only [hne, if_false]
  rw [foldl_valDigitsBE n v 0 hv]
  simp

theorem div16_56_lt {v : Nat} (hv : v < 16 ^ 64) : v / 16 ^ 56 < 16 ^ 8 := by
  rw [Nat.div_lt_iff_lt_mul (by positivity)]
  calc v < 16 ^ 64 := hv
    _ = 16 ^ 8 * 16 ^ 56 := by norm_num

/-- The swap controller's bucket equals the first 32 bits of the digest
reduced modulo 100. -/
theorem cohortBucket_eq_top32 (keccak : List Nat → Nat)
    (hk : ∀ s, keccak s < 16 ^ 64) (address salt : List Nat) :
    cohortBucket keccak address salt =
      keccak (toLowerStr address ++ colonCode :: salt) / 16 ^ 56 % 100 := by
  unfold cohortBucket hexDigest
  have h1 : ((48 :: 120 ::
      toHexBE 64 (keccak (toLowerStr address ++ colonCode :: salt))).drop 2).take 8 =
      toHexBE 8 (keccak (toLowerStr address ++ colonCode :: salt) / 16 ^ 56) := by
    have := take_toHexBE (k := 8) (n := 64)
      (v := keccak (toLowerStr address ++ colonCode :: salt)) (by norm_num)
    simpa using this
  simp only [h1]
  rw [parseInt16_toHexBE (by norm_num) (div16_56_lt (hk _))]
  rfl

/-- The legacy controller's bucket equals the same quantity. -/
theorem cohortBucketLegacy_eq_top32 (keccak : List Nat → Nat)
    (hk : ∀ s, keccak s < 16 ^ 64) (address salt : List Nat) :
    cohortBucketLegacy keccak address salt =
      keccak (toLowerStr address ++ colonCode :: salt) / 16 ^ 56 % 100 := by
  unfold cohortBucketLegacy hexDigest
  have h1 : (48 :: 120 ::
      toHexBE 64 (keccak (toLowerStr address ++ colonCode :: salt))).take 10 =
      48 :: 120 :: toHexBE 8 (keccak (toLowerStr address ++ colonCode :: salt) / 16 ^ 56) := by
    simp only [List.take_succ_cons]
    congr 1
    congr 1
    have := take_toHexBE (k := 8) (n := 64)
      (v := keccak (toLowerStr address ++ colonCode :: salt)) (by norm_num)
    simpa using this
  simp only [h1]
  rw [parseInt16_hexMark (by norm_num) (div16_56_lt (hk _))]
  rfl

/-- C10: the two independent `cohortBucket` implementations (hash string
sliced as `h.slice(2, 10)` versus the `0x`-prefixed `h.slice(0, 10)` passed
to `parseInt` with radix 16) are extensionally equal: for every address and
salt they produce the same bucket, so both controllers assign every wallet
to the same cohort. -/
theorem claim_C10 (keccak : List Nat → Nat) (hk : ∀ s, keccak s < 16 ^ 64)
    (address salt : List Nat) :
    cohortBucket keccak address salt = cohortBucketLegacy keccak address salt := by
  rw [cohortBucket_eq_top32 keccak hk, cohortBucketLegacy_eq_top32 keccak hk]

theorem claim_C10_witness :
    (∀ s : List Nat, (fun _ => 0 : List Nat → Nat) s < 16 ^ 64) ∧
    cohortBucket (fun _ => 0) [48] [49] = cohortBucketLegacy (fun _ => 0) [48] [49] :=
  ⟨fun _ => by positivity, claim_C10 (fun _ => 0) (fun _ => by positivity) [48] [49]⟩

/-- C5: the cohort assignor is a deterministic pure function: the bucket is
an integer in `[0, 100)`, equal to the first 32 bits of the keccak digest of
the lowercase address joined with the salt, reduced modulo 100; identical
inputs give identical outputs; with gating enabled (and the salt present, as
startup validation guarantees) eligibility is exactly `bucket < eligiblePercent`,
and with gating disabled every address is eligible. -/
theorem claim_C5 (keccak : List Nat → Nat) (hk : ∀ s, keccak s < 16 ^ 64)
    (address salt : List Nat) (pct : Int) (hsalt : salt ≠ []) :
    cohortBucket keccak address salt < 100 ∧
    cohortBucket keccak address salt =
      keccak (toLowerStr address ++ colonCode :: salt) / 16 ^ 56 % 100 ∧
    (∀ a2 s2, a2 = address → s2 = salt →
      cohortBucket keccak a2 s2 = cohortBucket keccak address salt) ∧
    isInEligibleCohort keccak address true pct salt =
      .ok (decide ((cohortBucket keccak address salt : Int) < pct)) ∧
    isInEligibleCohort keccak address false pct salt = .ok true := by
  have hlt : cohortBucket keccak address salt < 100 := by
    unfold cohortBucket
    exact Nat.mod_lt _ (by norm_num)
  refine ⟨hlt, cohortBucket_eq_top32 keccak hk address salt, ?_, ?_, rfl⟩
  · intro a2 s2 ha hs
    rw [ha, hs]
  · unfold isInEligibleCohort
    rw [if_neg (by simp), if_neg hsalt]
    by_cases h3 : pct ≤ 0
    · rw [if_pos h3]
      have hnot : ¬((cohortBucket keccak address salt : Int) < pct) := by omega
      simp [hnot]
    · rw [if_neg h3]
      by_cases h4 : (100 : Int) ≤ pct
      · rw [if_pos h4]
        have hyes : (cohortBucket keccak address salt : Int) < pct := by omega
        simp [hyes]
      · rw [if_neg h4]

theorem claim_C5_witness :
    (∀ s : List Nat, (fun _ => 0 : List Nat → Nat) s < 16 ^ 64) ∧
    ([49] : List Nat) ≠ [] ∧
    (cohortBucket (fun _ => 0) [48] [49] < 100 ∧
    cohortBucket (fun _ => 0) [48] [49] =
      (fun _ => 0 : List Nat → Nat) (toLowerStr [48] ++ colonCode :: [49]) / 16 ^ 56 % 100 ∧
    (∀ a2 s2, a2 = [48] → s2 = [49] →
      cohortBucket (fun _ => 0) a2 s2 = cohortBucket (fun _ => 0) [48] [49]) ∧
    isInEligibleCohort (fun _ => 0) [48] true 50 [49] =
      .ok (decide ((cohortBucket (fun _ => 0) [48] [49] : Int) < 50)) ∧
    isInEligibleCohort (fun _ => 0) [48] false 50 [49] = .ok true) :=
  ⟨fun _ => by positivity, by decide,
    claim_C5 (fun _ => 0) (fun _ => by positivity) [48] [49] 50 (by decide)⟩


/- ### Chain events and the resilient range fetcher -/

/-- Classification of a provider-side `eth_getLogs` failure.  The swap
controller's fetchers catch the error without inspecting it; the class
exists in the world so that rate-limit-specific claims can be stated. -/
inductive QueryError
  | rateLimit
  | other
deriving DecidableEq

/-- Observable step of a fetcher invocation: a provider query over a range
(with its outcome) or a sleep of a number of milliseconds. -/
inductive FetchStep
  | attempt (frm toB : Nat) (ok : Bool)
  | sleepMs (ms : Nat)
deriving DecidableEq

/-- A decoded Uniswap V3 `Swap` log, with the fields read by the controller. -/
structure SwapEvent where
  blockNumber : Nat
  txHash : Nat
  logIndex : Nat
  sender : List Nat
  recipient : List Nat
  amount0 : Int
  amount1 : Int
  sqrtPriceX96 : Nat
  liquidity : Nat
  tick : Int
deriving DecidableEq

/-- A decoded ERC-20 `Transfer` log. -/
structure TransferEvent where
  blockNumber : Nat
  txHash : Nat
  logIndex : Nat
  fromAddr : List Nat
  toAddr : List Nat
  value : Nat
deriving DecidableEq

/-- `querySwapLogs` of reward_controller_amm_swaps.js (lines 424-438), run
against a deterministic provider oracle `q`.  On any error over a multi-block
range the upper bound shrinks to the midpoint after a 300 ms sleep; a failure
on a single-block range propagates.  Returns the provider result of the final
attempt together with the trace of attempts and sleeps. -/
def querySwapLogsFn (q : Nat → Nat → Except QueryError (List SwapEvent)) :
    Nat → Nat → Except QueryError (List SwapEvent) × List FetchStep
  | start, e =>
    match q start e with
    | .ok logs => (.ok logs, [.attempt start e true])
    | .error err =>
      if h : start < e then
        let r := querySwapLogsFn q start (start + (e - start) / 2)
        (r.1, .attempt start e false :: .sleepMs 300 :: r.2)
      else (.error err, [.attempt start e false])
  termination_by start e => e - start
  decreasing_by omega

/-- `queryTransferLogs` of reward_controller_amm_swaps.js (lines 368-382):
identical retry structure over the ERC-20 `Transfer` filter. -/
def queryTransferLogsFn (q : Nat → Nat → Except QueryError (List TransferEvent)) :
    Nat → Nat → Except QueryError (List TransferEvent) × List FetchStep
  | start, e =>
    match q start e with
    | .ok logs => (.ok logs, [.attempt start e true])
    | .error err =>
      if h : start < e then
        let r := queryTransferLogsFn q start (start + (e - start) / 2)
        (r.1, .attempt start e false :: .sleepMs 300 :: r.2)
      else (.error err, [.attempt start e false])
  termination_by start e => e - start
  decreasing_by omega

/-- The sequence of ranges a fetcher invocation queried. -/
def attemptedRanges : List FetchStep → List (Nat × Nat)
  | [] => []
  | .attempt f t _ :: rest => (f, t) :: attemptedRanges rest
  | _ :: rest => attemptedRanges rest

/-- Provider oracle that rate-limits the range `[0, 1]` and succeeds (with no
logs) on every other range. -/
def rlOracle : Nat → Nat → Except QueryError (List SwapEvent) :=
  fun f t => if f = 0 ∧ t = 1 then .error .rateLimit else .ok []

/-- C9 is falsified at a concrete input: after a rate-limit failure on the
two-block range `[0, 1]`, the swap controller's fetcher does not retry the
identical range — its next (and final) attempt is the shrunken range
`[0, 0]`. -/
theorem claim_C9_counterexample :
    rlOracle 0 1 = .error .rateLimit ∧
    attemptedRanges (querySwapLogsFn rlOracle 0 1).2 = [(0, 1), (0, 0)] ∧
    ((0, 0) : Nat × Nat) ≠ ((0, 1) : Nat × Nat) := by
  refine ⟨rfl, ?_, by decide⟩
  rw [querySwapLogsFn]
  simp only [rlOracle]
  norm_num
  rw [querySwapLogsFn]
  simp [attemptedRanges]

/-- C9 amended: when a log query fails — with a rate-limit error or any other
error — on a multi-block range, both fetchers sleep a fixed 300 ms and retry
with the range shrunk to its lower half `[start, start + (end - start) / 2]`
(the identical range is never retried); on a single-block range the error
propagates to the caller. -/
theorem claim_C9 :
    (∀ (q : Nat → Nat → Except QueryError (List SwapEvent)) (start e : Nat)
      (err : QueryError), q start e = .error err →
      (start < e → querySwapLogsFn q start e =
        ((querySwapLogsFn q start (start + (e - start) / 2)).1,
         .attempt start e false :: .sleepMs 300 ::
           (querySwapLogsFn q start (start + (e - start) / 2)).2)) ∧
      (¬ start < e → querySwapLogsFn q start e = (.error err, [.attempt start e false]))) ∧
    (∀ (q : Nat → Nat → Except QueryError (List TransferEvent)) (start e : Nat)
      (err : QueryError), q start e = .error err →
      (start < e → queryTransferLogsFn q start e =
        ((queryTransferLogsFn q start (start + (e - start) / 2)).1,
         .attempt start e false :: .sleepMs 300 ::
           (queryTransferLogsFn q start (start + (e - start) / 2)).2)) ∧
      (¬ start < e → queryTransferLogsFn q start e = (.error err, [.attempt start e false]))) := by
  constructor
  · intro q start e err hq
    constructor
    · intro hlt
      rw [querySwapLogsFn]
      simp [hq, hlt]
    · intro hge
      rw [querySwapLogsFn]
      simp [hq, hge]
  · intro q start e err hq
    constructor
    · intro hlt
      rw [queryTransferLogsFn]
      simp [hq, hlt]
    · intro hge
      rw [queryTransferLogsFn]
      simp [hq, hge]

theorem claim_C9_witness :
    rlOracle 0 1 = Except.error QueryError.rateLimit ∧
    (0 < 1 → querySwapLogsFn rlOracle 0 1 =
      ((querySwapLogsFn rlOracle 0 0).1,
       .attempt 0 1 false :: .sleepMs 300 :: (querySwapLogsFn rlOracle 0 0).2)) :=
  ⟨rfl, ((claim_C9.1 rlOracle 0 1 .rateLimit rfl).1 : _)⟩

/- ### Controller state, external world, and the mint gate -/

/-- Pointwise update of a JS-object-style map keyed by strings. -/
def updateFn {b : Type} (m : List Nat → b) (k : List Nat) (v : b) : List Nat → b :=
  fun x => if x = k then v else m x

/-- The code units of ethers.ZeroAddress. -/
def zeroAddress : List Nat := 48 :: 120 :: List.replicate 40 48

/-- Controller configuration resolved in `main` (lines 238-256). -/
structure Config where
  swapMintEnabled : Bool
  legacyMintEnabled : Bool
  indexTransfers : Bool
  tokenIs0 : Bool
  threshold : Nat
  confirmations : Int
  chunkSize : Nat
  mintFailureCooldownMs : Int
  throwOnMintFailure : Bool
  cohortEnabled : Bool
  cohortEligiblePercent : Int
  cohortSalt : List Nat

/-- External library and environment functions: keccak256, address
validation, `Date.now()` (indexed by the number of calls made so far), the
fate of the k-th mint submission, and `token.balanceOf`. -/
structure Env where
  keccak : List Nat → Nat
  isAddress : List Nat → Bool
  clock : Nat → Nat
  mintOk : Nat → Bool
  balanceOf : List Nat → Nat

/-- The authoritative external world: the reward-issuance ledger (keyed by
normalized address) plus oracle call counters. -/
structure World where
  ledger : List Nat → Bool
  tick : Nat
  mints : Nat

/-- The persisted controller state (`loadState`, lines 68-110). -/
structure CState where
  lastProcessedTransferBlock : Nat
  lastProcessedSwapBlock : Nat
  cumulativeBuys : List Nat → Nat
  mintedCache : List Nat → Bool
  mintFailures : List Nat → Option Nat

/-- Externally visible ledger interactions made by the controller. -/
inductive ExtCall
  | hasMintedCall (a : List Nat) (res : Bool)
  | mintCall (a : List Nat) (ok : Bool)
deriving DecidableEq

/-- `nft.hasMinted(a)`: the chain normalizes the address. -/
def hasMintedChain (w : World) (a : List Nat) : Bool :=
  w.ledger (toLowerStr a)

/-- `nft.mint(a)` under the C1 assumptions on the issuance ledger: the call
fails if the wallet has already been issued to; otherwise it confirms exactly
when the submission oracle lets the k-th submission through, and a confirmed
issuance is recorded in the ledger. -/
def mintAttempt (env : Env) (w : World) (a : List Nat) : World × Bool :=
  let aL := toLowerStr a
  if w.ledger aL then ({ w with mints := w.mints + 1 }, false)
  else if env.mintOk w.mints then
    ({ w with ledger := updateFn w.ledger aL true, mints := w.mints + 1 }, true)
  else ({ w with mints := w.mints + 1 }, false)

/-- Result of one gate invocation: new controller state, new world, the
ledger calls made, and whether a mint failure was rethrown
(`THROW_ON_MINT_FAILURE`) or the legacy mint threw. -/
structure GateOut where
  st : CState
  w : World
  calls : List ExtCall
  threw : Bool

/-- Lines 489-556 of `maybeMintFromCumulativeBuys`: the authoritative
`hasMinted` guard, the threshold check, and the mint attempt with
failure-cooldown recording. -/
def maybeMintAuth (cfg : Config) (env : Env) (st : CState) (w : World)
    (buyer buyerL : List Nat) : GateOut :=
  if hasMintedChain w buyer then
    { st := { st with mintedCache := updateFn st.mintedCache buyerL true },
      w := w, calls := [.hasMintedCall buyer true], threw := false }
  else if st.cumulativeBuys buyerL < cfg.threshold then
    { st := st, w := w, calls := [.hasMintedCall buyer false], threw := false }
  else
    let p := mintAttempt env w buyer
    if p.2 then
      { st := { st with
          mintedCache := updateFn st.mintedCache buyerL true,
          mintFailures := updateFn st.mintFailures buyerL none },
        w := p.1, calls := [.hasMintedCall buyer false, .mintCall buyer true],
        threw := false }
    else
      let failNow := env.clock p.1.tick
      { st := { st with mintFailures := updateFn st.mintFailures buyerL (some failNow) },
        w := { p.1 with tick := p.1.tick + 1 },
        calls := [.hasMintedCall buyer false, .mintCall buyer false],
        threw := cfg.throwOnMintFailure }

/-- `maybeMintFromCumulativeBuys` (lines 462-557).  The cohort check uses the
Boolean form of `isInEligibleCohort`, valid under the startup validation that
a salt is configured whenever gating is enabled (lines 318-320). -/
def maybeMintFromCumulativeBuys (cfg : Config) (env : Env) (st : CState) (w : World)
    (buyer : List Nat) : GateOut :=
  if cfg.swapMintEnabled = false then { st := st, w := w, calls := [], threw := false }
  else if env.isAddress buyer = false ∨ buyer = zeroAddress then
    { st := st, w := w, calls := [], threw := false }
  else if isInEligibleCohortB env.keccak buyer cfg.cohortEnabled
      cfg.cohortEligiblePercent cfg.cohortSalt = false then
    { st := st, w := w, calls := [], threw := false }
  else
    let buyerL := toLowerStr buyer
    let nowMs := env.clock w.tick
    let w1 := { w with tick := w.tick + 1 }
    let lastFailMs := (st.mintFailures buyerL).getD 0
    if lastFailMs ≠ 0 ∧ (nowMs : Int) - lastFailMs < cfg.mintFailureCooldownMs then
      { st := st, w := w1, calls := [], threw := false }
    else if st.mintedCache buyerL then
      if hasMintedChain w1 buyer then
        { st := st, w := w1, calls := [.hasMintedCall buyer true], threw := false }
      else
        let st1 := { st with mintedCache := updateFn st.mintedCache buyerL false }
        let r := maybeMintAuth cfg env st1 w1 buyer buyerL
        { r with calls := .hasMintedCall buyer false :: r.calls }
    else maybeMintAuth cfg env st w1 buyer buyerL

/-- `handleEligibleLegacy` (lines 338-366).  A mint failure here rethrows
(the legacy path has no cooldown handling). -/
def handleEligibleLegacy (cfg : Config) (env : Env) (st : CState) (w : World)
    (dest : List Nat) : GateOut :=
  if cfg.legacyMintEnabled = false then { st := st, w := w, calls := [], threw := false }
  else if env.isAddress dest = false ∨ dest = zeroAddress then
    { st := st, w := w, calls := [], threw := false }
  else if isInEligibleCohortB env.keccak dest cfg.cohortEnabled
      cfg.cohortEligiblePercent cfg.cohortSalt = false then
    { st := st, w := w, calls := [], threw := false }
  else
    let toL := toLowerStr dest
    if st.mintedCache toL then { st := st, w := w, calls := [], threw := false }
    else if hasMintedChain w dest then
      { st := { st with mintedCache := updateFn st.mintedCache toL true },
        w := w, calls := [.hasMintedCall dest true], threw := false }
    else if env.balanceOf dest < cfg.threshold then
      { st := st, w := w, calls := [.hasMintedCall dest false], threw := false }
    else
      let p := mintAttempt env w dest
      if p.2 then
        { st := { st with mintedCache := updateFn st.mintedCache toL true },
          w := p.1, calls := [.hasMintedCall dest false, .mintCall dest true],
          threw := false }
      else
        { st := st, w := p.1,
          calls := [.hasMintedCall dest false, .mintCall dest false], threw := true }

/- ### Swap attribution and event folding -/

/-- `getTokenBoughtFromSwap` (lines 448-460). -/
def getTokenBoughtFromSwap (tokenIs0 : Bool) (amount0 amount1 : Int) : Int :=
  if tokenIs0 then (if amount0 < 0 then -amount0 else 0)
  else (if amount1 < 0 then -amount1 else 0)

/-- A row of the `controller_swaps` analytic index. -/
structure SwapRecord where
  block_number : Nat
  tx_hash : Nat
  log_index : Nat
  sender : List Nat
  recipient : List Nat
  amount0 : Int
  amount1 : Int
  sqrt_price_x96 : Nat
  liquidity : Nat
  tick : Int
  token_bought_raw : Int
deriving DecidableEq

def mkSwapRecord (e : SwapEvent) (tokenBought : Int) : SwapRecord :=
  { block_number := e.blockNumber, tx_hash := e.txHash, log_index := e.logIndex,
    sender := toLowerStr e.sender, recipient := toLowerStr e.recipient,
    amount0 := e.amount0, amount1 := e.amount1, sqrt_price_x96 := e.sqrtPriceX96,
    liquidity := e.liquidity, tick := e.tick, token_bought_raw := tokenBought }

/-- `INSERT OR IGNORE` keyed on `(tx_hash, log_index)`. -/
def insertOrIgnoreSwap (rows : List SwapRecord) (r : SwapRecord) : List SwapRecord :=
  if rows.any (fun x => decide (x.tx_hash = r.tx_hash ∧ x.log_index = r.log_index)) then rows
  else rows ++ [r]

/-- A row of the `controller_transfers` analytic index. -/
structure TransferRecord where
  block_number : Nat
  tx_hash : Nat
  log_index : Nat
  from_address : List Nat
  to_address : List Nat
  value_raw : Nat
deriving DecidableEq

def insertOrIgnoreTransfer (rows : List TransferRecord) (r : TransferRecord) :
    List TransferRecord :=
  if rows.any (fun x => decide (x.tx_hash = r.tx_hash ∧ x.log_index = r.log_index)) then rows
  else rows ++ [r]

/-- Accumulator of the per-chunk swap-event loop (lines 569-620). -/
structure SwapFold where
  st : CState
  w : World
  rows : List SwapRecord
  calls : List ExtCall
  threw : Bool

/-- The body of the swap-event loop in `backfillSwaps` (lines 569-620): fold
one swap event — attribute bought volume to the recipient, invoke the mint
gate, then idempotently insert the analytic record.  A rethrown mint failure
stops the loop before the record insert. -/
def foldSwapLog (cfg : Config) (env : Env) (a : SwapFold) (e : SwapEvent) : SwapFold :=
  if a.threw then a
  else
    let buyer := e.recipient
    let tokenBought := getTokenBoughtFromSwap cfg.tokenIs0 e.amount0 e.amount1
    if 0 < tokenBought then
      let buyerL := toLowerStr buyer
      let next := a.st.cumulativeBuys buyerL + tokenBought.toNat
      let st1 := { a.st with cumulativeBuys := updateFn a.st.cumulativeBuys buyerL next }
      let g := maybeMintFromCumulativeBuys cfg env st1 a.w buyer
      if g.threw then
        { st := g.st, w := g.w, rows := a.rows, calls := a.calls ++ g.calls, threw := true }
      else
        { st := g.st, w := g.w,
          rows := insertOrIgnoreSwap a.rows (mkSwapRecord e tokenBought),
          calls := a.calls ++ g.calls, threw := false }
    else
      { a with rows := insertOrIgnoreSwap a.rows (mkSwapRecord e tokenBought) }

def foldSwapLogs (cfg : Config) (env : Env) (a : SwapFold) (logs : List SwapEvent) :
    SwapFold :=
  logs.foldl (foldSwapLog cfg env) a

/-- Accumulator of the per-chunk transfer-event loop (lines 396-414). -/
structure TransferFold where
  st : CState
  w : World
  rows : List TransferRecord
  calls : List ExtCall
  threw : Bool

/-- The body of the transfer-event loop in `backfillTransfers`: run the
legacy gate when enabled, then idempotently insert the analytic record. -/
def foldTransferLog (cfg : Config) (env : Env) (a : TransferFold) (e : TransferEvent) :
    TransferFold :=
  if a.threw then a
  else
    let g := if cfg.legacyMintEnabled then handleEligibleLegacy cfg env a.st a.w e.toAddr
      else { st := a.st, w := a.w, calls := [], threw := false }
    if g.threw then
      { st := g.st, w := g.w, rows := a.rows, calls := a.calls ++ g.calls, threw := true }
    else
      { st := g.st, w := g.w,
        rows := insertOrIgnoreTransfer a.rows
          { block_number := e.blockNumber, tx_hash := e.txHash, log_index := e.logIndex,
            from_address := toLowerStr e.fromAddr, to_address := toLowerStr e.toAddr,
            value_raw := e.value },
        calls := a.calls ++ g.calls, threw := false }

def foldTransferLogs (cfg : Config) (env : Env) (a : TransferFold)
    (logs : List TransferEvent) : TransferFold :=
  logs.foldl (foldTransferLog cfg env) a

/- ### Backfill cursor engine -/

/-- Result of one backfill pass over swap events. -/
structure SwapBackfillOut where
  st : CState
  w : World
  rows : List SwapRecord
  calls : List ExtCall
  aborted : Bool

/-- The chunk loop of `backfillSwaps` (lines 564-625): process
`[frm, min(frm + chunkSize - 1, targetN)]`, persist the cursor at the chunk
bound, continue.  A fetch that ultimately throws, or a rethrown mint
failure, aborts the pass with the state as already persisted.  `fuel` bounds
the iteration count (sufficient fuel is supplied by `backfillSwaps`). -/
def backfillSwapsLoop (cfg : Config) (env : Env)
    (q : Nat → Nat → Except QueryError (List SwapEvent)) (targetN : Nat) :
    Nat → Nat → CState → World → List SwapRecord → List ExtCall → SwapBackfillOut
  | 0, _, st, w, rows, calls => ⟨st, w, rows, calls, false⟩
  | fuel + 1, frm, st, w, rows, calls =>
    if frm ≤ targetN then
      let toB := min (frm + cfg.chunkSize - 1) targetN
      match (querySwapLogsFn q frm toB).1 with
      | .error _ => ⟨st, w, rows, calls, true⟩
      | .ok logs =>
        let f := foldSwapLogs cfg env ⟨st, w, rows, calls, false⟩ logs
        if f.threw then ⟨f.st, f.w, f.rows, f.calls, true⟩
        else
          backfillSwapsLoop cfg env q targetN fuel (toB + 1)
            { f.st with lastProcessedSwapBlock := toB } f.w f.rows f.calls
    else ⟨st, w, rows, calls, false⟩

/-- `backfillSwaps` (lines 559-626): compute
`target = currentHeight - confirmations`; no-op when `target ≤ cursor`,
otherwise run the chunk loop from `cursor + 1`. -/
def backfillSwaps (cfg : Config) (env : Env)
    (q : Nat → Nat → Except QueryError (List SwapEvent)) (current : Nat)
    (st : CState) (w : World) (rows : List SwapRecord) : SwapBackfillOut :=
  let target : Int := (current : Int) - cfg.confirmations
  if target ≤ (st.lastProcessedSwapBlock : Int) then ⟨st, w, rows, [], false⟩
  else
    backfillSwapsLoop cfg env q target.toNat
      (target.toNat - st.lastProcessedSwapBlock)
      (st.lastProcessedSwapBlock + 1) st w rows []

/-- Result of one backfill pass over transfer events. -/
structure TransferBackfillOut where
  st : CState
  w : World
  rows : List TransferRecord
  calls : List ExtCall
  aborted : Bool

/-- The chunk loop of `backfillTransfers` (lines 391-419). -/
def backfillTransfersLoop (cfg : Config) (env : Env)
    (q : Nat → Nat → Except QueryError (List TransferEvent)) (targetN : Nat) :
    Nat → Nat → CState → World → List TransferRecord → List ExtCall →
      TransferBackfillOut
  | 0, _, st, w, rows, calls => ⟨st, w, rows, calls, false⟩
  | fuel + 1, frm, st, w, rows, calls =>
    if frm ≤ targetN then
      let toB := min (frm + cfg.chunkSize - 1) targetN
      match (queryTransferLogsFn q frm toB).1 with
      | .error _ => ⟨st, w, rows, calls, true⟩
      | .ok logs =>
        let f := foldTransferLogs cfg env ⟨st, w, rows, calls, false⟩ logs
        if f.threw then ⟨f.st, f.w, f.rows, f.calls, true⟩
        else
          backfillTransfersLoop cfg env q targetN fuel (toB + 1)
            { f.st with lastProcessedTransferBlock := toB } f.w f.rows f.calls
    else ⟨st, w, rows, calls, false⟩

/-- `backfillTransfers` (lines 384-420), including its enablement guard. -/
def backfillTransfers (cfg : Config) (env : Env)
    (q : Nat → Nat → Except QueryError (List TransferEvent)) (current : Nat)
    (st : CState) (w : World) (rows : List TransferRecord) : TransferBackfillOut :=
  if cfg.legacyMintEnabled = false ∧ cfg.indexTransfers = false then
    ⟨st, w, rows, [], false⟩
  else
    let target : Int := (current : Int) - cfg.confirmations
    if target ≤ (st.lastProcessedTransferBlock : Int) then ⟨st, w, rows, [], false⟩
    else
      backfillTransfersLoop cfg env q target.toNat
        (target.toNat - st.lastProcessedTransferBlock)
        (st.lastProcessedTransferBlock + 1) st w rows []

/- ### The steady-state loop: a sequence of backfill passes -/

/-- One trigger of the steady-state loop: the chain height at that moment
and the provider's behavior for that pass. -/
structure Pass where
  current : Nat
  qs : Nat → Nat → Except QueryError (List SwapEvent)
  qt : Nat → Nat → Except QueryError (List TransferEvent)

/-- The whole observable system: controller state, external world, the two
analytic indices, and the accumulated ledger-call history. -/
structure SysState where
  st : CState
  w : World
  rows : List SwapRecord
  trows : List TransferRecord
  calls : List ExtCall

/-- One `on("block")` round (lines 651-653): transfer backfill (when
enabled) then swap backfill; an exception from the transfer backfill skips
the swap backfill for this round. -/
def runControllerPass (cfg : Config) (env : Env) (s : SysState) (p : Pass) : SysState :=
  let t := backfillTransfers cfg env p.qt p.current s.st s.w s.trows
  if t.aborted then
    { st := t.st, w := t.w, rows := s.rows, trows := t.rows, calls := s.calls ++ t.calls }
  else
    let b := backfillSwaps cfg env p.qs p.current t.st t.w s.rows
    { st := b.st, w := b.w, rows := b.rows, trows := t.rows,
      calls := s.calls ++ t.calls ++ b.calls }

def runControllerPasses (cfg : Config) (env : Env) (ps : List Pass) (s : SysState) :
    SysState :=
  ps.foldl (runControllerPass cfg env) s


/- ### Preservation lemmas for the mint gate -/

theorem maybeMintAuth_preserve (cfg : Config) (env : Env) (st : CState) (w : World)
    (buyer buyerL : List Nat) :
    (maybeMintAuth cfg env st w buyer buyerL).st.cumulativeBuys = st.cumulativeBuys ∧
    (maybeMintAuth cfg env st w buyer buyerL).st.lastProcessedSwapBlock =
      st.lastProcessedSwapBlock ∧
    (maybeMintAuth cfg env st w buyer buyerL).st.lastProcessedTransferBlock =
      st.lastProcessedTransferBlock := by
  simp only [maybeMintAuth]
  split_ifs <;> simp

theorem maybeMint_preserve (cfg : Config) (env : Env) (st : CState) (w : World)
    (buyer : List Nat) :
    (maybeMintFromCumulativeBuys cfg env st w buyer).st.cumulativeBuys =
      st.cumulativeBuys ∧
    (maybeMintFromCumulativeBuys cfg env st w buyer).st.lastProcessedSwapBlock =
      st.lastProcessedSwapBlock ∧
    (maybeMintFromCumulativeBuys cfg env st w buyer).st.lastProcessedTransferBlock =
      st.lastProcessedTransferBlock := by
  simp only [maybeMintFromCumulativeBuys]
  split_ifs <;>
    first
    | (simp; done)
    | exact ⟨(maybeMintAuth_preserve cfg env _ _ buyer _).1,
        (maybeMintAuth_preserve cfg env _ _ buyer _).2.1,
        (maybeMintAuth_preserve cfg env _ _ buyer _).2.2⟩

theorem handleEligibleLegacy_preserve (cfg : Config) (env : Env) (st : CState)
    (w : World) (dest : List Nat) :
    (handleEligibleLegacy cfg env st w dest).st.cumulativeBuys = st.cumulativeBuys ∧
    (handleEligibleLegacy cfg env st w dest).st.lastProcessedSwapBlock =
      st.lastProcessedSwapBlock ∧
    (handleEligibleLegacy cfg env st w dest).st.lastProcessedTransferBlock =
      st.lastProcessedTransferBlock := by
  simp only [handleEligibleLegacy]
  split_ifs <;> simp

/- ### Projections of a single fold step -/

theorem foldSwapLog_cum_pos (cfg : Config) (env : Env) (a : SwapFold) (e : SwapEvent)
    (h : a.threw = false)
    (hpos : 0 < getTokenBoughtFromSwap cfg.tokenIs0 e.amount0 e.amount1) :
    (foldSwapLog cfg env a e).st.cumulativeBuys =
      updateFn a.st.cumulativeBuys (toLowerStr e.recipient)
        (a.st.cumulativeBuys (toLowerStr e.recipient) +
          (getTokenBoughtFromSwap cfg.tokenIs0 e.amount0 e.amount1).toNat) := by
  simp only [foldSwapLog, h, Bool.false_eq_true, if_false, if_pos hpos]
  split_ifs <;> exact (maybeMint_preserve cfg env _ _ _).1

theorem foldSwapLog_cum_zero (cfg : Config) (env : Env) (a : SwapFold) (e : SwapEvent)
    (h : a.threw = false)
    (hz : ¬ 0 < getTokenBoughtFromSwap cfg.tokenIs0 e.amount0 e.amount1) :
    (foldSwapLog cfg env a e).st.cumulativeBuys = a.st.cumulativeBuys := by
  simp only [foldSwapLog, h, Bool.false_eq_true, if_false, if_neg hz]

theorem foldSwapLog_cursors (cfg : Config) (env : Env) (a : SwapFold) (e : SwapEvent) :
    (foldSwapLog cfg env a e).st.lastProcessedSwapBlock =
      a.st.lastProcessedSwapBlock ∧
    (foldSwapLog cfg env a e).st.lastProcessedTransferBlock =
      a.st.lastProcessedTransferBlock := by
  simp only [foldSwapLog]
  split_ifs <;>
    first
    | exact ⟨rfl, rfl⟩
    | exact ⟨(maybeMint_preserve cfg env _ _ _).2.1,
        (maybeMint_preserve cfg env _ _ _).2.2⟩

theorem foldTransferLog_cursors (cfg : Config) (env : Env) (a : TransferFold)
    (e : TransferEvent) :
    (foldTransferLog cfg env a e).st.lastProcessedSwapBlock =
      a.st.lastProcessedSwapBlock ∧
    (foldTransferLog cfg env a e).st.lastProcessedTransferBlock =
      a.st.lastProcessedTransferBlock := by
  simp only [foldTransferLog]
  split_ifs <;>
    first
    | exact ⟨rfl, rfl⟩
    | exact ⟨(handleEligibleLegacy_preserve cfg env _ _ _).2.1,
        (handleEligibleLegacy_preserve cfg env _ _ _).2.2⟩

theorem foldSwapLogs_cursors (cfg : Config) (env : Env) (logs : List SwapEvent) :
    ∀ a : SwapFold,
      (foldSwapLogs cfg env a logs).st.lastProcessedSwapBlock =
        a.st.lastProcessedSwapBlock ∧
      (foldSwapLogs cfg env a logs).st.lastProcessedTransferBlock =
        a.st.lastProcessedTransferBlock := by
  induction logs with
  | nil => intro a; exact ⟨rfl, rfl⟩
  | cons e logs ih =>
    intro a
    have h1 := foldSwapLog_cursors cfg env a e
    have h2 := ih (foldSwapLog cfg env a e)
    exact ⟨h2.1.trans h1.1, h2.2.trans h1.2⟩

theorem foldTransferLogs_cursors (cfg : Config) (env : Env)
    (logs : List TransferEvent) :
    ∀ a : TransferFold,
      (foldTransferLogs cfg env a logs).st.lastProcessedSwapBlock =
        a.st.lastProcessedSwapBlock ∧
      (foldTransferLogs cfg env a logs).st.lastProcessedTransferBlock =
        a.st.lastProcessedTransferBlock := by
  induction logs with
  | nil => intro a; exact ⟨rfl, rfl⟩
  | cons e logs ih =>
    intro a
    have h1 := foldTransferLog_cursors cfg env a e
    have h2 := ih (foldTransferLog cfg env a e)
    exact ⟨h2.1.trans h1.1, h2.2.trans h1.2⟩

/- ### C4: swap attribution -/

/-- C4: for every swap event folded by the backfill loop, if the tracked
asset's signed delta is negative then the recipient wallet's cumulative
bought volume grows by exactly the absolute value of that delta, and if the
delta is non-negative the event contributes zero to every wallet's
cumulative volume. -/
theorem claim_C4 (cfg : Config) (env : Env) (a : SwapFold) (e : SwapEvent)
    (hthrew : a.threw = false) :
    ((foldSwapLog cfg env a e).st.cumulativeBuys (toLowerStr e.recipient) =
      a.st.cumulativeBuys (toLowerStr e.recipient) +
        (if (if cfg.tokenIs0 then e.amount0 else e.amount1) < 0 then
          (-(if cfg.tokenIs0 then e.amount0 else e.amount1)).toNat else 0)) ∧
    (0 ≤ (if cfg.tokenIs0 then e.amount0 else e.amount1) →
      (foldSwapLog cfg env a e).st.cumulativeBuys = a.st.cumulativeBuys) := by
  have hbought : getTokenBoughtFromSwap cfg.tokenIs0 e.amount0 e.amount1 =
      (if (if cfg.tokenIs0 then e.amount0 else e.amount1) < 0 then
        -(if cfg.tokenIs0 then e.amount0 else e.amount1) else 0) := by
    unfold getTokenBoughtFromSwap
    by_cases h : cfg.tokenIs0 <;> simp [h]
  by_cases hneg : (if cfg.tokenIs0 then e.amount0 else e.amount1) < 0
  · have hpos : 0 < getTokenBoughtFromSwap cfg.tokenIs0 e.amount0 e.amount1 := by
      rw [hbought, if_pos hneg]; omega
    constructor
    · rw [foldSwapLog_cum_pos cfg env a e hthrew hpos]
      simp only [updateFn, if_pos rfl]
      rw [hbought, if_pos hneg, if_pos hneg]
      simp
    · intro hge; omega
  · have hz : ¬ 0 < getTokenBoughtFromSwap cfg.tokenIs0 e.amount0 e.amount1 := by
      rw [hbought, if_neg hneg]; omega
    constructor
    · rw [foldSwapLog_cum_zero cfg env a e hthrew hz]
      simp [if_neg hneg]
    · intro _
      exact foldSwapLog_cum_zero cfg env a e hthrew hz

/-- Empty initial controller state for concrete evaluations. -/
def st0 : CState :=
  { lastProcessedTransferBlock := 0, lastProcessedSwapBlock := 0,
    cumulativeBuys := fun _ => 0, mintedCache := fun _ => false,
    mintFailures := fun _ => none }

/-- Fresh external world for concrete evaluations. -/
def w0 : World := { ledger := fun _ => false, tick := 0, mints := 0 }

/-- Standard environment for concrete evaluations. -/
def envStd : Env :=
  { keccak := fun _ => 0, isAddress := fun _ => true, clock := fun _ => 1000,
    mintOk := fun _ => true, balanceOf := fun _ => 0 }

/-- Configuration with swap minting off and cohort gating off, used to
exercise the pure folding behavior. -/
def cfgFold : Config :=
  { swapMintEnabled := false, legacyMintEnabled := false, indexTransfers := false,
    tokenIs0 := false, threshold := 1000, confirmations := 2, chunkSize := 1000,
    mintFailureCooldownMs := 60000, throwOnMintFailure := false,
    cohortEnabled := false, cohortEligiblePercent := 50, cohortSalt := [] }

/-- The -500 scenario: tracked asset is the pool token1; the swap pays 500
base units of it out to recipient `0xaaa`. -/
def swapMinus500 : SwapEvent :=
  { blockNumber := 120, txHash := 1, logIndex := 0, sender := [48, 120, 98],
    recipient := [48, 120, 97, 97, 97], amount0 := 500, amount1 := -500,
    sqrtPriceX96 := 0, liquidity := 0, tick := 0 }

theorem claim_C4_witness :
    (false = false) ∧
    ((foldSwapLog cfgFold envStd ⟨st0, w0, [], [], false⟩
        swapMinus500).st.cumulativeBuys (toLowerStr swapMinus500.recipient) =
      st0.cumulativeBuys (toLowerStr swapMinus500.recipient) +
        (if (if cfgFold.tokenIs0 then swapMinus500.amount0 else swapMinus500.amount1) < 0
          then (-(if cfgFold.tokenIs0 then swapMinus500.amount0
            else swapMinus500.amount1)).toNat else 0)) :=
  ⟨rfl, (claim_C4 cfgFold envStd ⟨st0, w0, [], [], false⟩ swapMinus500 rfl).1⟩


/- ### C3: replay of a block range is not idempotent on the Wallet Ledger -/

/-- C3 fails on the code: folding the same block range twice after a crash
between event folding and cursor persistence double-counts cumulative bought
volume.  With one swap event of tracked-asset delta -500 to `0xaaa`, folding
the range once yields cumulative volume 500, folding it twice yields 1000;
only the keyed Swap Record set is idempotent (the duplicate insert is
ignored). -/
theorem claim_C3 :
    (foldSwapLogs cfgFold envStd ⟨st0, w0, [], [], false⟩
        [swapMinus500]).st.cumulativeBuys (toLowerStr swapMinus500.recipient) = 500 ∧
    (foldSwapLogs cfgFold envStd ⟨st0, w0, [], [], false⟩
        ([swapMinus500] ++ [swapMinus500])).st.cumulativeBuys
        (toLowerStr swapMinus500.recipient) = 1000 ∧
    (foldSwapLogs cfgFold envStd ⟨st0, w0, [], [], false⟩
        ([swapMinus500] ++ [swapMinus500])).rows =
      (foldSwapLogs cfgFold envStd ⟨st0, w0, [], [], false⟩ [swapMinus500]).rows ∧
    (1000 : Nat) ≠ 500 := by
  exact ⟨by decide, by decide, by decide, by decide⟩

/- ### C6: stale minted-cache handling -/

/-- A wallet address used in the cache-staleness scenario. -/
def wAddr : List Nat := [48, 120, 98]

/-- Configuration with the legacy balance path enabled and cohort gating
disabled. -/
def cfgLegacy : Config :=
  { swapMintEnabled := true, legacyMintEnabled := true, indexTransfers := false,
    tokenIs0 := true, threshold := 500, confirmations := 2, chunkSize := 1000,
    mintFailureCooldownMs := 60000, throwOnMintFailure := false,
    cohortEnabled := false, cohortEligiblePercent := 50, cohortSalt := [] }

/-- Environment in which `wAddr` holds 1000 base units of the token. -/
def envLegacy : Env :=
  { keccak := fun _ => 0, isAddress := fun _ => true, clock := fun _ => 10,
    mintOk := fun _ => true, balanceOf := fun _ => 1000 }

/-- Controller state whose minted-cache flag for `wAddr` is (stale) `true`. -/
def stStale : CState :=
  { lastProcessedTransferBlock := 0, lastProcessedSwapBlock := 0,
    cumulativeBuys := fun _ => 0,
    mintedCache := updateFn (fun _ => false) (toLowerStr wAddr) true,
    mintFailures := fun _ => none }

/-- C6 fails on the code for the legacy path it cites: with a stale cached
minted flag (the authoritative ledger reports not minted) and a balance above
threshold, `handleEligibleLegacy` skips the wallet making no external call at
all — no re-verification, no cache discard, no mint — while the identical
state without the stale flag mints.  (The swap-driven gate does re-verify;
see the amended theorem.) -/
theorem claim_C6_counterexample :
    stStale.mintedCache (toLowerStr wAddr) = true ∧
    w0.ledger (toLowerStr wAddr) = false ∧
    cfgLegacy.threshold ≤ envLegacy.balanceOf wAddr ∧
    (handleEligibleLegacy cfgLegacy envLegacy stStale w0 wAddr).calls = [] ∧
    (handleEligibleLegacy cfgLegacy envLegacy stStale w0 wAddr).st = stStale ∧
    (handleEligibleLegacy cfgLegacy envLegacy stStale w0 wAddr).w = w0 ∧
    (handleEligibleLegacy cfgLegacy envLegacy st0 w0 wAddr).calls =
      [.hasMintedCall wAddr false, .mintCall wAddr true] := by
  exact ⟨rfl, rfl, by norm_num [cfgLegacy, envLegacy], rfl, rfl, rfl, rfl⟩

/-- C6 amended: in the swap-driven gate (`maybeMintFromCumulativeBuys`), a
cached minted flag is always re-verified against the authoritative
`hasMinted` before being trusted; when the authoritative ledger reports not
minted, the stale cache entry is discarded and the wallet is re-evaluated
exactly as if the flag had never been set (at the cost of one extra
authoritative query).  The legacy balance path (`handleEligibleLegacy`)
skips on the cached flag without re-verification. -/
theorem claim_C6 (cfg : Config) (env : Env) (st : CState) (w : World)
    (buyer : List Nat)
    (hen : cfg.swapMintEnabled = true)
    (haddr : env.isAddress buyer = true)
    (hzero : buyer ≠ zeroAddress)
    (hcoh : isInEligibleCohortB env.keccak buyer cfg.cohortEnabled
      cfg.cohortEligiblePercent cfg.cohortSalt = true)
    (hcool : ¬((st.mintFailures (toLowerStr buyer)).getD 0 ≠ 0 ∧
      ((env.clock w.tick : Int)) - (st.mintFailures (toLowerStr buyer)).getD 0 <
        cfg.mintFailureCooldownMs))
    (hcache : st.mintedCache (toLowerStr buyer) = true)
    (hchain : w.ledger (toLowerStr buyer) = false) :
    (maybeMintFromCumulativeBuys cfg env st w buyer).st =
      (maybeMintFromCumulativeBuys cfg env
        { st with mintedCache := updateFn st.mintedCache (toLowerStr buyer) false }
        w buyer).st ∧
    (maybeMintFromCumulativeBuys cfg env st w buyer).w =
      (maybeMintFromCumulativeBuys cfg env
        { st with mintedCache := updateFn st.mintedCache (toLowerStr buyer) false }
        w buyer).w ∧
    (maybeMintFromCumulativeBuys cfg env st w buyer).threw =
      (maybeMintFromCumulativeBuys cfg env
        { st with mintedCache := updateFn st.mintedCache (toLowerStr buyer) false }
        w buyer).threw ∧
    (maybeMintFromCumulativeBuys cfg env st w buyer).calls =
      .hasMintedCall buyer false ::
        (maybeMintFromCumulativeBuys cfg env
          { st with mintedCache := updateFn st.mintedCache (toLowerStr buyer) false }
          w buyer).calls := by
  have c1 : ¬(cfg.swapMintEnabled = false) := by simp [hen]
  have c2 : ¬(env.isAddress buyer = false ∨ buyer = zeroAddress) := by
    simp [haddr, hzero]
  have c3 : ¬(isInEligibleCohortB env.keccak buyer cfg.cohortEnabled
      cfg.cohortEligiblePercent cfg.cohortSalt = false) := by simp [hcoh]
  have c6 : ¬(hasMintedChain { w with tick := w.tick + 1 } buyer = true) := by
    simp [hasMintedChain, hchain]
  have c7 : ¬(updateFn st.mintedCache (toLowerStr buyer) false
      (toLowerStr buyer) = true) := by simp [updateFn]
  simp only [maybeMintFromCumulativeBuys, if_neg c1, if_neg c2, if_neg c3,
    if_neg hcool, if_pos hcache, if_neg c6, if_neg c7]
  simp

theorem claim_C6_witness :
    (cfgLegacy.swapMintEnabled = true ∧
     envLegacy.isAddress wAddr = true ∧
     wAddr ≠ zeroAddress ∧
     isInEligibleCohortB envLegacy.keccak wAddr cfgLegacy.cohortEnabled
       cfgLegacy.cohortEligiblePercent cfgLegacy.cohortSalt = true ∧
     ¬((stStale.mintFailures (toLowerStr wAddr)).getD 0 ≠ 0 ∧
       ((envLegacy.clock w0.tick : Int)) -
         (stStale.mintFailures (toLowerStr wAddr)).getD 0 <
         cfgLegacy.mintFailureCooldownMs) ∧
     stStale.mintedCache (toLowerStr wAddr) = true ∧
     w0.ledger (toLowerStr wAddr) = false) ∧
    (maybeMintFromCumulativeBuys cfgLegacy envLegacy stStale w0 wAddr).calls =
      .hasMintedCall wAddr false ::
        (maybeMintFromCumulativeBuys cfgLegacy envLegacy
          { stStale with
            mintedCache := updateFn stStale.mintedCache (toLowerStr wAddr) false }
          w0 wAddr).calls :=
  ⟨⟨rfl, rfl, by decide, rfl, by decide, rfl, rfl⟩,
    (claim_C6 cfgLegacy envLegacy stStale w0 wAddr rfl rfl (by decide) rfl
      (by decide) rfl rfl).2.2.2⟩


/- ### C7: cooldown suppression -/

/-- Two controller states that agree everywhere except possibly on the
failure marker of one wallet key. -/
def AgreeExceptFail (key : List Nat) (st1 st2 : CState) : Prop :=
  st1.cumulativeBuys = st2.cumulativeBuys ∧
  st1.mintedCache = st2.mintedCache ∧
  st1.lastProcessedSwapBlock = st2.lastProcessedSwapBlock ∧
  st1.lastProcessedTransferBlock = st2.lastProcessedTransferBlock ∧
  ∀ x, x ≠ key → st1.mintFailures x = st2.mintFailures x

theorem maybeMintAuth_agree (cfg : Config) (env : Env) (st1 st2 : CState)
    (w : World) (b bl : List Nat) (h : AgreeExceptFail bl st1 st2) :
    (maybeMintAuth cfg env st1 w b bl).w = (maybeMintAuth cfg env st2 w b bl).w ∧
    (maybeMintAuth cfg env st1 w b bl).calls =
      (maybeMintAuth cfg env st2 w b bl).calls ∧
    (maybeMintAuth cfg env st1 w b bl).threw =
      (maybeMintAuth cfg env st2 w b bl).threw ∧
    AgreeExceptFail bl (maybeMintAuth cfg env st1 w b bl).st
      (maybeMintAuth cfg env st2 w b bl).st := by
  obtain ⟨hc, hm, hs, ht, hf⟩ := h
  by_cases cH : hasMintedChain w b = true
  · simp only [maybeMintAuth, if_pos cH]
    exact ⟨by simp, by simp, by simp, hc, by simp only [hm], hs, ht, hf⟩
  by_cases cT : st1.cumulativeBuys bl < cfg.threshold
  · have cT2 : st2.cumulativeBuys bl < cfg.threshold := by rw [← hc]; exact cT
    simp only [maybeMintAuth, if_neg cH, if_pos cT, if_pos cT2]
    exact ⟨by simp, by simp, by simp, hc, hm, hs, ht, hf⟩
  · have cT2 : ¬ st2.cumulativeBuys bl < cfg.threshold := by rw [← hc]; exact cT
    by_cases cP : (mintAttempt env w b).2 = true
    · simp only [maybeMintAuth, if_neg cH, if_neg cT, if_neg cT2, if_pos cP]
      refine ⟨by simp, by simp, by simp, hc, by simp only [hm], hs, ht, ?_⟩
      intro x hx
      simp only [updateFn, if_neg hx]
      exact hf x hx
    · simp only [maybeMintAuth, if_neg cH, if_neg cT, if_neg cT2, if_neg cP]
      refine ⟨by simp, by simp, by simp, hc, hm, hs, ht, ?_⟩
      intro x hx
      simp only [updateFn, if_neg hx]
      exact hf x hx

theorem maybeMint_agree (cfg : Config) (env : Env) (st1 st2 : CState) (w : World)
    (b : List Nat) (h : AgreeExceptFail (toLowerStr b) st1 st2)
    (hcool : ((st1.mintFailures (toLowerStr b)).getD 0 ≠ 0 ∧
        (env.clock w.tick : Int) - (st1.mintFailures (toLowerStr b)).getD 0 <
          cfg.mintFailureCooldownMs) ↔
      ((st2.mintFailures (toLowerStr b)).getD 0 ≠ 0 ∧
        (env.clock w.tick : Int) - (st2.mintFailures (toLowerStr b)).getD 0 <
          cfg.mintFailureCooldownMs)) :
    (maybeMintFromCumulativeBuys cfg env st1 w b).w =
      (maybeMintFromCumulativeBuys cfg env st2 w b).w ∧
    (maybeMintFromCumulativeBuys cfg env st1 w b).calls =
      (maybeMintFromCumulativeBuys cfg env st2 w b).calls ∧
    (maybeMintFromCumulativeBuys cfg env st1 w b).threw =
      (maybeMintFromCumulativeBuys cfg env st2 w b).threw ∧
    AgreeExceptFail (toLowerStr b) (maybeMintFromCumulativeBuys cfg env st1 w b).st
      (maybeMintFromCumulativeBuys cfg env st2 w b).st := by
  have hagree := h
  obtain ⟨hc, hm, hs, ht, hf⟩ := h
  by_cases cE : cfg.swapMintEnabled = false
  · simp only [maybeMintFromCumulativeBuys, if_pos cE]
    exact ⟨by simp, by simp, by simp, hagree⟩
  by_cases cA : env.isAddress b = false ∨ b = zeroAddress
  · simp only [maybeMintFromCumulativeBuys, if_neg cE, if_pos cA]
    exact ⟨by simp, by simp, by simp, hagree⟩
  by_cases cC : isInEligibleCohortB env.keccak b cfg.cohortEnabled
      cfg.cohortEligiblePercent cfg.cohortSalt = false
  · simp only [maybeMintFromCumulativeBuys, if_neg cE, if_neg cA, if_pos cC]
    exact ⟨by simp, by simp, by simp, hagree⟩
  by_cases cD : (st1.mintFailures (toLowerStr b)).getD 0 ≠ 0 ∧
      (env.clock w.tick : Int) - (st1.mintFailures (toLowerStr b)).getD 0 <
        cfg.mintFailureCooldownMs
  · simp only [maybeMintFromCumulativeBuys, if_neg cE, if_neg cA, if_neg cC,
      if_pos cD, if_pos (hcool.mp cD)]
    exact ⟨by simp, by simp, by simp, hagree⟩
  · have cD2 : ¬((st2.mintFailures (toLowerStr b)).getD 0 ≠ 0 ∧
        (env.clock w.tick : Int) - (st2.mintFailures (toLowerStr b)).getD 0 <
          cfg.mintFailureCooldownMs) := fun hx => cD (hcool.mpr hx)
    by_cases cM : st1.mintedCache (toLowerStr b) = true
    · have cM2 : st2.mintedCache (toLowerStr b) = true := by rw [← hm]; exact cM
      by_cases cH : hasMintedChain { w with tick := w.tick + 1 } b = true
      · simp only [maybeMintFromCumulativeBuys, if_neg cE, if_neg cA, if_neg cC,
          if_neg cD, if_neg cD2, if_pos cM, if_pos cM2, if_pos cH]
        exact ⟨by simp, by simp, by simp, hagree⟩
      · simp only [maybeMintFromCumulativeBuys, if_neg cE, if_neg cA, if_neg cC,
          if_neg cD, if_neg cD2, if_pos cM, if_pos cM2, if_neg cH]
        have h2 := maybeMintAuth_agree cfg env
          { st1 with mintedCache := updateFn st1.mintedCache (toLowerStr b) false }
          { st2 with mintedCache := updateFn st2.mintedCache (toLowerStr b) false }
          { w with tick := w.tick + 1 } b (toLowerStr b)
          ⟨hc, by simp only [hm], hs, ht, fun x hx => hf x hx⟩
        exact ⟨h2.1, by rw [h2.2.1], h2.2.2.1, h2.2.2.2⟩
    · have cM2 : ¬ st2.mintedCache (toLowerStr b) = true := by rw [← hm]; exact cM
      simp only [maybeMintFromCumulativeBuys, if_neg cE, if_neg cA, if_neg cC,
        if_neg cD, if_neg cD2, if_neg cM, if_neg cM2]
      exact maybeMintAuth_agree cfg env st1 st2 { w with tick := w.tick + 1 } b
        (toLowerStr b) hagree

theorem maybeMintAuth_mintSuccess (cfg : Config) (env : Env) (st : CState)
    (w : World) (b bl : List Nat)
    (hmem : ExtCall.mintCall b true ∈ (maybeMintAuth cfg env st w b bl).calls) :
    (maybeMintAuth cfg env st w b bl).st.mintFailures bl = none ∧
    (maybeMintAuth cfg env st w b bl).st.mintedCache bl = true := by
  by_cases cH : hasMintedChain w b = true
  · simp only [maybeMintAuth, if_pos cH] at hmem
    simp at hmem
  by_cases cT : st.cumulativeBuys bl < cfg.threshold
  · simp only [maybeMintAuth, if_neg cH, if_pos cT] at hmem
    simp at hmem
  by_cases cP : (mintAttempt env w b).2 = true
  · simp only [maybeMintAuth, if_neg cH, if_neg cT, if_pos cP]
    simp [updateFn]
  · simp only [maybeMintAuth, if_neg cH, if_neg cT, if_neg cP] at hmem
    simp at hmem

theorem maybeMint_mintSuccess (cfg : Config) (env : Env) (st : CState) (w : World)
    (b : List Nat)
    (hmem : ExtCall.mintCall b true ∈
      (maybeMintFromCumulativeBuys cfg env st w b).calls) :
    (maybeMintFromCumulativeBuys cfg env st w b).st.mintFailures (toLowerStr b) =
      none ∧
    (maybeMintFromCumulativeBuys cfg env st w b).st.mintedCache (toLowerStr b) =
      true := by
  by_cases cE : cfg.swapMintEnabled = false
  · simp only [maybeMintFromCumulativeBuys, if_pos cE] at hmem
    simp at hmem
  by_cases cA : env.isAddress b = false ∨ b = zeroAddress
  · simp only [maybeMintFromCumulativeBuys, if_neg cE, if_pos cA] at hmem
    simp at hmem
  by_cases cC : isInEligibleCohortB env.keccak b cfg.cohortEnabled
      cfg.cohortEligiblePercent cfg.cohortSalt = false
  · simp only [maybeMintFromCumulativeBuys, if_neg cE, if_neg cA, if_pos cC] at hmem
    simp at hmem
  by_cases cD : (st.mintFailures (toLowerStr b)).getD 0 ≠ 0 ∧
      (env.clock w.tick : Int) - (st.mintFailures (toLowerStr b)).getD 0 <
        cfg.mintFailureCooldownMs
  · simp only [maybeMintFromCumulativeBuys, if_neg cE, if_neg cA, if_neg cC,
      if_pos cD] at hmem
    simp at hmem
  by_cases cM : st.mintedCache (toLowerStr b) = true
  · by_cases cH : hasMintedChain { w with tick := w.tick + 1 } b = true
    · simp only [maybeMintFromCumulativeBuys, if_neg cE, if_neg cA, if_neg cC,
        if_neg cD, if_pos cM, if_pos cH] at hmem
      simp at hmem
    · simp only [maybeMintFromCumulativeBuys, if_neg cE, if_neg cA, if_neg cC,
        if_neg cD, if_pos cM, if_neg cH] at hmem ⊢
      refine maybeMintAuth_mintSuccess cfg env _ _ b (toLowerStr b) ?_
      simp only [List.mem_cons] at hmem
      rcases hmem with h | h
      · exact absurd h (by simp)
      · exact h
  · simp only [maybeMintFromCumulativeBuys, if_neg cE, if_neg cA, if_neg cC,
      if_neg cD, if_neg cM] at hmem ⊢
    exact maybeMintAuth_mintSuccess cfg env _ _ b (toLowerStr b) hmem

/-- C7: while a wallet's recorded mint-failure timestamp is within the
cooldown window, the Mint Gate skips the wallet entirely — no state change,
no authoritative check, no mint attempt; once the cooldown has elapsed the
wallet is re-evaluated exactly as if the failure marker were absent; and a
successful mint clears the failure marker and sets the minted-cache flag. -/
theorem claim_C7 (cfg : Config) (env : Env) (st : CState) (w : World)
    (buyer : List Nat) (t : Nat)
    (hrec : st.mintFailures (toLowerStr buyer) = some t) (ht0 : t ≠ 0) :
    ((env.clock w.tick : Int) - t < cfg.mintFailureCooldownMs →
      (maybeMintFromCumulativeBuys cfg env st w buyer).st = st ∧
      (maybeMintFromCumulativeBuys cfg env st w buyer).calls = [] ∧
      (maybeMintFromCumulativeBuys cfg env st w buyer).threw = false) ∧
    (cfg.mintFailureCooldownMs ≤ (env.clock w.tick : Int) - t →
      (maybeMintFromCumulativeBuys cfg env st w buyer).w =
        (maybeMintFromCumulativeBuys cfg env
          { st with mintFailures := updateFn st.mintFailures (toLowerStr buyer) none }
          w buyer).w ∧
      (maybeMintFromCumulativeBuys cfg env st w buyer).calls =
        (maybeMintFromCumulativeBuys cfg env
          { st with mintFailures := updateFn st.mintFailures (toLowerStr buyer) none }
          w buyer).calls ∧
      (maybeMintFromCumulativeBuys cfg env st w buyer).threw =
        (maybeMintFromCumulativeBuys cfg env
          { st with mintFailures := updateFn st.mintFailures (toLowerStr buyer) none }
          w buyer).threw ∧
      AgreeExceptFail (toLowerStr buyer)
        (maybeMintFromCumulativeBuys cfg env st w buyer).st
        (maybeMintFromCumulativeBuys cfg env
          { st with mintFailures := updateFn st.mintFailures (toLowerStr buyer) none }
          w buyer).st) ∧
    (ExtCall.mintCall buyer true ∈
        (maybeMintFromCumulativeBuys cfg env st w buyer).calls →
      (maybeMintFromCumulativeBuys cfg env st w buyer).st.mintFailures
        (toLowerStr buyer) = none ∧
      (maybeMintFromCumulativeBuys cfg env st w buyer).st.mintedCache
        (toLowerStr buyer) = true) := by
  refine ⟨?_, ?_, maybeMint_mintSuccess cfg env st w buyer⟩
  · intro hlt
    simp only [maybeMintFromCumulativeBuys, hrec, Option.getD_some]
    split_ifs with h1 h2 h3 h4 h5 h6 <;>
      first
      | exact ⟨rfl, rfl, rfl⟩
      | exact absurd ⟨ht0, hlt⟩ h4
  · intro hge
    refine maybeMint_agree cfg env st
      { st with mintFailures := updateFn st.mintFailures (toLowerStr buyer) none }
      w buyer ⟨rfl, rfl, rfl, rfl, ?_⟩ ?_
    · intro x hx
      simp [updateFn, hx]
    · constructor
      · intro hx
        rw [hrec] at hx
        simp only [Option.getD_some] at hx
        omega
      · intro hx
        simp [updateFn] at hx


/-- Environment whose `Date.now()` reads 600 ms. -/
def envCooled : Env :=
  { keccak := fun _ => 0, isAddress := fun _ => true, clock := fun _ => 600,
    mintOk := fun _ => true, balanceOf := fun _ => 1000 }

/-- Controller state recording a mint failure for `wAddr` at 500 ms. -/
def stCooled : CState :=
  { lastProcessedTransferBlock := 0, lastProcessedSwapBlock := 0,
    cumulativeBuys := fun _ => 0, mintedCache := fun _ => false,
    mintFailures := updateFn (fun _ => none) (toLowerStr wAddr) (some 500) }

theorem claim_C7_witness :
    stCooled.mintFailures (toLowerStr wAddr) = some 500 ∧
    (500 : Nat) ≠ 0 ∧
    (envCooled.clock w0.tick : Int) - (500 : Nat) <
      cfgLegacy.mintFailureCooldownMs ∧
    ((maybeMintFromCumulativeBuys cfgLegacy envCooled stCooled w0 wAddr).st =
        stCooled ∧
      (maybeMintFromCumulativeBuys cfgLegacy envCooled stCooled w0 wAddr).calls = [] ∧
      (maybeMintFromCumulativeBuys cfgLegacy envCooled stCooled w0 wAddr).threw =
        false) :=
  ⟨by decide, by decide, by decide,
    (claim_C7 cfgLegacy envCooled stCooled w0 wAddr 500 (by decide) (by decide)).1
      (by decide)⟩

/- ### C8: cursor monotonicity -/

theorem backfillSwapsLoop_cursor (cfg : Config) (env : Env)
    (q : Nat → Nat → Except QueryError (List SwapEvent)) (targetN : Nat) :
    ∀ (fuel frm : Nat) (st : CState) (w : World) (rows : List SwapRecord)
      (calls : List ExtCall), frm = st.lastProcessedSwapBlock + 1 →
      st.lastProcessedSwapBlock ≤
        (backfillSwapsLoop cfg env q targetN fuel frm st w rows
          calls).st.lastProcessedSwapBlock ∧
      (backfillSwapsLoop cfg env q targetN fuel frm st w rows
          calls).st.lastProcessedSwapBlock ≤ max st.lastProcessedSwapBlock targetN ∧
      (backfillSwapsLoop cfg env q targetN fuel frm st w rows
          calls).st.lastProcessedTransferBlock = st.lastProcessedTransferBlock := by
  intro fuel
  induction fuel with
  | zero =>
    intro frm st w rows calls hfrm
    exact ⟨le_refl _, le_max_left _ _, rfl⟩
  | succ fuel ih =>
    intro frm st w rows calls hfrm
    simp only [backfillSwapsLoop]
    by_cases hle : frm ≤ targetN
    · simp only [if_pos hle]
      rcases hq : (querySwapLogsFn q frm (min (frm + cfg.chunkSize - 1) targetN)).1
        with err | logs
      · simp only [hq]
        refine ⟨?_, ?_, ?_⟩ <;>
          first
          | exact le_refl _
          | exact le_max_left _ _
          | rfl
          | exact True.intro
      · simp only [hq]
        have hfold := foldSwapLogs_cursors cfg env logs ⟨st, w, rows, calls, false⟩
        by_cases hthrew :
            (foldSwapLogs cfg env ⟨st, w, rows, calls, false⟩ logs).threw = true
        · simp only [if_pos hthrew]
          exact ⟨le_of_eq hfold.1.symm, (le_of_eq hfold.1).trans (le_max_left _ _),
            hfold.2⟩
        · simp only [if_neg hthrew]
          have htoB : st.lastProcessedSwapBlock ≤
              min (frm + cfg.chunkSize - 1) targetN := by
            have h1 : frm ≤ frm + cfg.chunkSize := Nat.le_add_right _ _
            omega
          have hrec := ih (min (frm + cfg.chunkSize - 1) targetN + 1)
            { (foldSwapLogs cfg env ⟨st, w, rows, calls, false⟩ logs).st with
              lastProcessedSwapBlock := min (frm + cfg.chunkSize - 1) targetN }
            (foldSwapLogs cfg env ⟨st, w, rows, calls, false⟩ logs).w
            (foldSwapLogs cfg env ⟨st, w, rows, calls, false⟩ logs).rows
            (foldSwapLogs cfg env ⟨st, w, rows, calls, false⟩ logs).calls rfl
          have hmax : max (min (frm + cfg.chunkSize - 1) targetN) targetN = targetN := by
            have h2 : min (frm + cfg.chunkSize - 1) targetN ≤ targetN :=
              min_le_right _ _
            omega
          refine ⟨htoB.trans hrec.1, ?_, hrec.2.2.trans hfold.2⟩
          exact (hmax ▸ hrec.2.1).trans (le_max_right _ _)
    · simp only [if_neg hle]
      refine ⟨?_, ?_, ?_⟩ <;>
        first
        | exact le_refl _
        | exact le_max_left _ _
        | rfl
        | exact True.intro


theorem backfillTransfersLoop_cursor (cfg : Config) (env : Env)
    (q : Nat → Nat → Except QueryError (List TransferEvent)) (targetN : Nat) :
    ∀ (fuel frm : Nat) (st : CState) (w : World) (rows : List TransferRecord)
      (calls : List ExtCall), frm = st.lastProcessedTransferBlock + 1 →
      st.lastProcessedTransferBlock ≤
        (backfillTransfersLoop cfg env q targetN fuel frm st w rows
          calls).st.lastProcessedTransferBlock ∧
      (backfillTransfersLoop cfg env q targetN fuel frm st w rows
          calls).st.lastProcessedTransferBlock ≤
        max st.lastProcessedTransferBlock targetN ∧
      (backfillTransfersLoop cfg env q targetN fuel frm st w rows
          calls).st.lastProcessedSwapBlock = st.lastProcessedSwapBlock := by
  intro fuel
  induction fuel with
  | zero =>
    intro frm st w rows calls hfrm
    exact ⟨le_refl _, le_max_left _ _, rfl⟩
  | succ fuel ih =>
    intro frm st w rows calls hfrm
    simp only [backfillTransfersLoop]
    by_cases hle : frm ≤ targetN
    · simp only [if_pos hle]
      rcases hq : (queryTransferLogsFn q frm (min (frm + cfg.chunkSize - 1) targetN)).1
        with err | logs
      · simp only [hq]
        refine ⟨?_, ?_, ?_⟩ <;>
          first
          | exact le_refl _
          | exact le_max_left _ _
          | rfl
          | exact True.intro
      · simp only [hq]
        have hfold := foldTransferLogs_cursors cfg env logs ⟨st, w, rows, calls, false⟩
        by_cases hthrew :
            (foldTransferLogs cfg env ⟨st, w, rows, calls, false⟩ logs).threw = true
        · simp only [if_pos hthrew]
          exact ⟨le_of_eq hfold.2.symm, (le_of_eq hfold.2).trans (le_max_left _ _),
            hfold.1⟩
        · simp only [if_neg hthrew]
          have htoB : st.lastProcessedTransferBlock ≤
              min (frm + cfg.chunkSize - 1) targetN := by
            have h1 : frm ≤ frm + cfg.chunkSize := Nat.le_add_right _ _
            omega
          have hrec := ih (min (frm + cfg.chunkSize - 1) targetN + 1)
            { (foldTransferLogs cfg env ⟨st, w, rows, calls, false⟩ logs).st with
              lastProcessedTransferBlock := min (frm + cfg.chunkSize - 1) targetN }
            (foldTransferLogs cfg env ⟨st, w, rows, calls, false⟩ logs).w
            (foldTransferLogs cfg env ⟨st, w, rows, calls, false⟩ logs).rows
            (foldTransferLogs cfg env ⟨st, w, rows, calls, false⟩ logs).calls rfl
          have hmax : max (min (frm + cfg.chunkSize - 1) targetN) targetN = targetN := by
            have h2 : min (frm + cfg.chunkSize - 1) targetN ≤ targetN :=
              min_le_right _ _
            omega
          refine ⟨htoB.trans hrec.1, ?_, hrec.2.2.trans hfold.1⟩
          exact (hmax ▸ hrec.2.1).trans (le_max_right _ _)
    · simp only [if_neg hle]
      refine ⟨?_, ?_, ?_⟩ <;>
        first
        | exact le_refl _
        | exact le_max_left _ _
        | rfl
        | exact True.intro

theorem backfillSwaps_cursor (cfg : Config) (env : Env)
    (q : Nat → Nat → Except QueryError (List SwapEvent)) (current : Nat)
    (st : CState) (w : World) (rows : List SwapRecord) :
    st.lastProcessedSwapBlock ≤
      (backfillSwaps cfg env q current st w rows).st.lastProcessedSwapBlock ∧
    (backfillSwaps cfg env q current st w rows).st.lastProcessedSwapBlock ≤
      max st.lastProcessedSwapBlock ((current : Int) - cfg.confirmations).toNat ∧
    (backfillSwaps cfg env q current st w rows).st.lastProcessedTransferBlock =
      st.lastProcessedTransferBlock ∧
    ((current : Int) - cfg.confirmations ≤ (st.lastProcessedSwapBlock : Int) →
      backfillSwaps cfg env q current st w rows = ⟨st, w, rows, [], false⟩) := by
  by_cases hle : (current : Int) - cfg.confirmations ≤ (st.lastProcessedSwapBlock : Int)
  · simp only [backfillSwaps, if_pos hle]
    refine ⟨?_, ?_, ?_, ?_⟩ <;>
      first
      | exact le_refl _
      | exact le_max_left _ _
      | rfl
      | exact True.intro
      | exact fun _ => True.intro
      | exact fun _ => rfl
  · simp only [backfillSwaps, if_neg hle]
    have hloop := backfillSwapsLoop_cursor cfg env q
      ((current : Int) - cfg.confirmations).toNat
      (((current : Int) - cfg.confirmations).toNat - st.lastProcessedSwapBlock)
      (st.lastProcessedSwapBlock + 1) st w rows [] rfl
    exact ⟨hloop.1, hloop.2.1, hloop.2.2, fun hcontra => absurd hcontra hle⟩

theorem backfillTransfers_cursor (cfg : Config) (env : Env)
    (q : Nat → Nat → Except QueryError (List TransferEvent)) (current : Nat)
    (st : CState) (w : World) (rows : List TransferRecord) :
    st.lastProcessedTransferBlock ≤
      (backfillTransfers cfg env q current st w rows).st.lastProcessedTransferBlock ∧
    (backfillTransfers cfg env q current st w rows).st.lastProcessedTransferBlock ≤
      max st.lastProcessedTransferBlock ((current : Int) - cfg.confirmations).toNat ∧
    (backfillTransfers cfg env q current st w rows).st.lastProcessedSwapBlock =
      st.lastProcessedSwapBlock ∧
    ((current : Int) - cfg.confirmations ≤ (st.lastProcessedTransferBlock : Int) →
      backfillTransfers cfg env q current st w rows = ⟨st, w, rows, [], false⟩) := by
  by_cases hguard : cfg.legacyMintEnabled = false ∧ cfg.indexTransfers = false
  · simp only [backfillTransfers, if_pos hguard]
    refine ⟨?_, ?_, ?_, ?_⟩ <;>
      first
      | exact le_refl _
      | exact le_max_left _ _
      | rfl
      | exact True.intro
      | exact fun _ => True.intro
      | exact fun _ => rfl
  by_cases hle : (current : Int) - cfg.confirmations ≤
      (st.lastProcessedTransferBlock : Int)
  · simp only [backfillTransfers, if_neg hguard, if_pos hle]
    refine ⟨?_, ?_, ?_, ?_⟩ <;>
      first
      | exact le_refl _
      | exact le_max_left _ _
      | rfl
      | exact True.intro
      | exact fun _ => True.intro
      | exact fun _ => rfl
  · simp only [backfillTransfers, if_neg hguard, if_neg hle]
    have hloop := backfillTransfersLoop_cursor cfg env q
      ((current : Int) - cfg.confirmations).toNat
      (((current : Int) - cfg.confirmations).toNat - st.lastProcessedTransferBlock)
      (st.lastProcessedTransferBlock + 1) st w rows [] rfl
    exact ⟨hloop.1, hloop.2.1, hloop.2.2, fun hcontra => absurd hcontra hle⟩

theorem runControllerPass_cursors (cfg : Config) (env : Env) (s : SysState)
    (p : Pass) :
    s.st.lastProcessedSwapBlock ≤
      (runControllerPass cfg env s p).st.lastProcessedSwapBlock ∧
    s.st.lastProcessedTransferBlock ≤
      (runControllerPass cfg env s p).st.lastProcessedTransferBlock := by
  have ht := backfillTransfers_cursor cfg env p.qt p.current s.st s.w s.trows
  simp only [runControllerPass]
  by_cases habort :
      (backfillTransfers cfg env p.qt p.current s.st s.w s.trows).aborted = true
  · simp only [if_pos habort]
    exact ⟨le_of_eq ht.2.2.1.symm, ht.1⟩
  · simp only [if_neg habort]
    have hb := backfillSwaps_cursor cfg env p.qs p.current
      (backfillTransfers cfg env p.qt p.current s.st s.w s.trows).st
      (backfillTransfers cfg env p.qt p.current s.st s.w s.trows).w s.rows
    constructor
    · calc s.st.lastProcessedSwapBlock =
          (backfillTransfers cfg env p.qt p.current s.st s.w
            s.trows).st.lastProcessedSwapBlock := ht.2.2.1.symm
        _ ≤ _ := hb.1
    · calc s.st.lastProcessedTransferBlock ≤
          (backfillTransfers cfg env p.qt p.current s.st s.w
            s.trows).st.lastProcessedTransferBlock := ht.1
        _ = _ := hb.2.2.1.symm

theorem runControllerPasses_mono (cfg : Config) (env : Env) (ps : List Pass) :
    ∀ s : SysState,
      s.st.lastProcessedSwapBlock ≤
        (runControllerPasses cfg env ps s).st.lastProcessedSwapBlock ∧
      s.st.lastProcessedTransferBlock ≤
        (runControllerPasses cfg env ps s).st.lastProcessedTransferBlock := by
  induction ps with
  | nil => intro s; exact ⟨le_refl _, le_refl _⟩
  | cons p ps ih =>
    intro s
    have h1 := runControllerPass_cursors cfg env s p
    have h2 := ih (runControllerPass cfg env s p)
    exact ⟨h1.1.trans h2.1, h1.2.trans h2.2⟩

/-- C8: across every sequence of backfill passes, each persisted cursor (swap
and transfer) is monotonically non-decreasing and never exceeds
`currentHeight - confirmationDepth` at the time of an advance; when
`target ≤ cursor` the advance is a no-op leaving the whole state unchanged. -/
theorem claim_C8 :
    (∀ (cfg : Config) (env : Env)
      (q : Nat → Nat → Except QueryError (List SwapEvent)) (current : Nat)
      (st : CState) (w : World) (rows : List SwapRecord),
      st.lastProcessedSwapBlock ≤
        (backfillSwaps cfg env q current st w rows).st.lastProcessedSwapBlock ∧
      ((backfillSwaps cfg env q current st w rows).st.lastProcessedSwapBlock : Int) ≤
        max (st.lastProcessedSwapBlock : Int) ((current : Int) - cfg.confirmations) ∧
      ((current : Int) - cfg.confirmations ≤ (st.lastProcessedSwapBlock : Int) →
        backfillSwaps cfg env q current st w rows = ⟨st, w, rows, [], false⟩)) ∧
    (∀ (cfg : Config) (env : Env)
      (q : Nat → Nat → Except QueryError (List TransferEvent)) (current : Nat)
      (st : CState) (w : World) (rows : List TransferRecord),
      st.lastProcessedTransferBlock ≤
        (backfillTransfers cfg env q current st w
          rows).st.lastProcessedTransferBlock ∧
      ((backfillTransfers cfg env q current st w
          rows).st.lastProcessedTransferBlock : Int) ≤
        max (st.lastProcessedTransferBlock : Int)
          ((current : Int) - cfg.confirmations) ∧
      ((current : Int) - cfg.confirmations ≤ (st.lastProcessedTransferBlock : Int) →
        backfillTransfers cfg env q current st w rows = ⟨st, w, rows, [], false⟩)) ∧
    (∀ (cfg : Config) (env : Env) (ps more : List Pass) (s : SysState),
      (runControllerPasses cfg env ps s).st.lastProcessedSwapBlock ≤
        (runControllerPasses cfg env (ps ++ more) s).st.lastProcessedSwapBlock ∧
      (runControllerPasses cfg env ps s).st.lastProcessedTransferBlock ≤
        (runControllerPasses cfg env (ps ++ more) s).st.lastProcessedTransferBlock) := by
  refine ⟨?_, ?_, ?_⟩
  · intro cfg env q current st w rows
    have h := backfillSwaps_cursor cfg env q current st w rows
    refine ⟨h.1, ?_, h.2.2.2⟩
    have h2 := h.2.1
    have hcast : ((backfillSwaps cfg env q current st w
        rows).st.lastProcessedSwapBlock : Int) ≤
        ((max st.lastProcessedSwapBlock
          ((current : Int) - cfg.confirmations).toNat : Nat) : Int) :=
      Int.ofNat_le.mpr h2
    calc ((backfillSwaps cfg env q current st w
        rows).st.lastProcessedSwapBlock : Int) ≤ _ := hcast
      _ ≤ max (st.lastProcessedSwapBlock : Int)
          ((current : Int) - cfg.confirmations) := by
        rw [Nat.cast_max]
        have := Int.toNat_eq_max ((current : Int) - cfg.confirmations)
        omega
  · intro cfg env q current st w rows
    have h := backfillTransfers_cursor cfg env q current st w rows
    refine ⟨h.1, ?_, h.2.2.2⟩
    have h2 := h.2.1
    have hcast : ((backfillTransfers cfg env q current st w
        rows).st.lastProcessedTransferBlock : Int) ≤
        ((max st.lastProcessedTransferBlock
          ((current : Int) - cfg.confirmations).toNat : Nat) : Int) :=
      Int.ofNat_le.mpr h2
    calc ((backfillTransfers cfg env q current st w
        rows).st.lastProcessedTransferBlock : Int) ≤ _ := hcast
      _ ≤ max (st.lastProcessedTransferBlock : Int)
          ((current : Int) - cfg.confirmations) := by
        rw [Nat.cast_max]
        have := Int.toNat_eq_max ((current : Int) - cfg.confirmations)
        omega
  · intro cfg env ps more s
    simp only [runControllerPasses, List.foldl_append]
    exact runControllerPasses_mono cfg env more (runControllerPasses cfg env ps s)


theorem claim_C8_witness :
    ((1 : Int) - cfgFold.confirmations ≤ (st0.lastProcessedSwapBlock : Int)) ∧
    (st0.lastProcessedSwapBlock ≤
      (backfillSwaps cfgFold envStd (fun _ _ => .ok []) 1 st0 w0
        []).st.lastProcessedSwapBlock ∧
    ((backfillSwaps cfgFold envStd (fun _ _ => .ok []) 1 st0 w0
        []).st.lastProcessedSwapBlock : Int) ≤
      max (st0.lastProcessedSwapBlock : Int) ((1 : Int) - cfgFold.confirmations) ∧
    ((1 : Int) - cfgFold.confirmations ≤ (st0.lastProcessedSwapBlock : Int) →
      backfillSwaps cfgFold envStd (fun _ _ => .ok []) 1 st0 w0 [] =
        ⟨st0, w0, [], [], false⟩)) :=
  ⟨by decide, claim_C8.1 cfgFold envStd (fun _ _ => .ok []) 1 st0 w0 []⟩

/- ### C1: at-most-one confirmed issuance per wallet -/

/-- Number of confirmed mint calls for the wallet with normalized address
`key` in a call history. -/
def countConfirmed (key : List Nat) (calls : List ExtCall) : Nat :=
  calls.countP (fun c => match c with
    | .mintCall a true => decide (toLowerStr a = key)
    | _ => false)

/-- Every mint submission in the history is immediately preceded by an
authoritative `hasMinted` check that returned `false` for the same wallet. -/
inductive MintGuarded : List ExtCall → Prop
  | nil : MintGuarded []
  | consHas (a : List Nat) (r : Bool) (rest : List ExtCall) :
      MintGuarded rest → MintGuarded (.hasMintedCall a r :: rest)
  | consPair (a : List Nat) (k : Bool) (rest : List ExtCall) :
      MintGuarded rest → MintGuarded (.hasMintedCall a false :: .mintCall a k :: rest)

theorem MintGuarded.append {l1 l2 : List ExtCall} (h1 : MintGuarded l1)
    (h2 : MintGuarded l2) : MintGuarded (l1 ++ l2) := by
  induction h1 with
  | nil => exact h2
  | consHas a r rest _ ih => exact .consHas a r _ ih
  | consPair a k rest _ ih => exact .consPair a k _ ih

theorem countConfirmed_append (key : List Nat) (l1 l2 : List ExtCall) :
    countConfirmed key (l1 ++ l2) = countConfirmed key l1 + countConfirmed key l2 :=
  List.countP_append _ _ _

/-- What one unit of controller work may do to the authoritative ledger,
relative to the call history it emits: at most one confirmed issuance for
`key`, a confirmed issuance happens only when `key` was unissued and leaves
it issued, no confirmed issuance leaves `key` unchanged, and every mint is
guarded by an authoritative check. -/
def GateStep (key : List Nat) (w : World) (calls : List ExtCall) (w2 : World) :
    Prop :=
  countConfirmed key calls ≤ 1 ∧
  (countConfirmed key calls = 1 → w.ledger key = false ∧ w2.ledger key = true) ∧
  (countConfirmed key calls = 0 → w2.ledger key = w.ledger key) ∧
  MintGuarded calls

theorem GateStep.empty (key : List Nat) {w w2 : World}
    (h : w2.ledger key = w.ledger key) : GateStep key w [] w2 :=
  ⟨by simp [countConfirmed], by simp [countConfirmed], fun _ => h, .nil⟩

theorem GateStep.comp {key : List Nat} {w1 w2 w3 : World}
    {calls1 calls2 : List ExtCall} (h1 : GateStep key w1 calls1 w2)
    (h2 : GateStep key w2 calls2 w3) : GateStep key w1 (calls1 ++ calls2) w3 := by
  obtain ⟨a1, b1, c1, g1⟩ := h1
  obtain ⟨a2, b2, c2, g2⟩ := h2
  refine ⟨?_, ?_, ?_, g1.append g2⟩ <;> rw [countConfirmed_append]
  · by_cases hm1 : countConfirmed key calls1 = 1
    · by_cases hn1 : countConfirmed key calls2 = 1
      · have hw := (b1 hm1).2
        have hw2 := (b2 hn1).1
        rw [hw] at hw2
        exact absurd hw2 (by simp)
      · omega
    · omega
  · intro hsum
    by_cases hm1 : countConfirmed key calls1 = 1
    · have hn0 : countConfirmed key calls2 = 0 := by omega
      have hw := b1 hm1
      exact ⟨hw.1, (c2 hn0).trans hw.2⟩
    · have hm0 : countConfirmed key calls1 = 0 := by omega
      have hn1 : countConfirmed key calls2 = 1 := by omega
      have hw := b2 hn1
      exact ⟨(c1 hm0).symm ▸ hw.1, hw.2⟩
  · intro hsum
    have hm0 : countConfirmed key calls1 = 0 := by omega
    have hn0 : countConfirmed key calls2 = 0 := by omega
    exact (c2 hn0).trans (c1 hm0)

theorem GateStep.preWorld {key : List Nat} {w0 w1 w2 : World} {calls : List ExtCall}
    (hl : w1.ledger key = w0.ledger key) (h : GateStep key w1 calls w2) :
    GateStep key w0 calls w2 := by
  obtain ⟨a, b, c, g⟩ := h
  exact ⟨a, fun hx => ⟨hl ▸ (b hx).1, (b hx).2⟩, fun hx => (c hx).trans hl, g⟩

theorem GateStep.hasOnly (key a : List Nat) (r : Bool) {w w2 : World}
    (h : w2.ledger key = w.ledger key) : GateStep key w [.hasMintedCall a r] w2 :=
  ⟨by simp [countConfirmed], by simp [countConfirmed], fun _ => h,
    .consHas a r [] .nil⟩

theorem GateStep.consHasPre (key a : List Nat) (r : Bool) {w0 w1 w2 : World}
    {calls : List ExtCall} (hl : w1.ledger key = w0.ledger key)
    (h : GateStep key w1 calls w2) :
    GateStep key w0 (.hasMintedCall a r :: calls) w2 := by
  obtain ⟨ha, hb, hc, hg⟩ := GateStep.preWorld hl h
  have hcount : countConfirmed key (.hasMintedCall a r :: calls) =
      countConfirmed key calls := by
    simp [countConfirmed, List.countP_cons]
  exact ⟨hcount ▸ ha, fun hx => hb (by omega), fun hx => hc (by omega), .consHas a r _ hg⟩

theorem GateStep.mintPair (key b : List Nat) (env : Env) (w w2 : World) (k : Bool)
    (hk : (mintAttempt env w b).2 = k) (hl : w2.ledger = (mintAttempt env w b).1.ledger) :
    GateStep key w [.hasMintedCall b false, .mintCall b k] w2 := by
  by_cases hL : w.ledger (toLowerStr b) = true
  · have hp : mintAttempt env w b = ({ w with mints := w.mints + 1 }, false) := by
      simp [mintAttempt, hL]
    have hk2 : k = false := by rw [hp] at hk; simpa using hk.symm
    subst hk2
    have hl2 : w2.ledger = w.ledger := by rw [hp] at hl; exact hl
    refine ⟨by simp [countConfirmed, List.countP_cons], ?_, fun _ => by rw [hl2],
      .consPair b false [] .nil⟩
    intro hx
    simp [countConfirmed, List.countP_cons] at hx
  · by_cases hOk : env.mintOk w.mints = true
    · have hp : mintAttempt env w b =
          ({ w with
              ledger := updateFn w.ledger (toLowerStr b) true,
              mints := w.mints + 1 }, true) := by
        simp [mintAttempt, hL, hOk]
      have hk2 : k = true := by rw [hp] at hk; simpa using hk.symm
      subst hk2
      have hl2 : w2.ledger = updateFn w.ledger (toLowerStr b) true := by
        rw [hp] at hl; exact hl
      by_cases hkey : toLowerStr b = key
      · have hcount : countConfirmed key
            [ExtCall.hasMintedCall b false, ExtCall.mintCall b true] = 1 := by
          simp [countConfirmed, List.countP_cons, hkey]
        refine ⟨by omega, fun _ => ⟨?_, ?_⟩, fun hx => by omega,
          .consPair b true [] .nil⟩
        · rw [← hkey]
          simp only [Bool.not_eq_true] at hL
          exact hL
        · rw [hl2, ← hkey]
          simp [updateFn]
      · have hcount : countConfirmed key
            [ExtCall.hasMintedCall b false, ExtCall.mintCall b true] = 0 := by
          simp [countConfirmed, List.countP_cons, hkey]
        refine ⟨by omega, fun hx => by omega, fun _ => ?_, .consPair b true [] .nil⟩
        rw [hl2]
        simp only [updateFn]
        rw [if_neg (fun h => hkey h.symm)]
    · have hp : mintAttempt env w b = ({ w with mints := w.mints + 1 }, false) := by
        simp [mintAttempt, hL, hOk]
      have hk2 : k = false := by rw [hp] at hk; simpa using hk.symm
      subst hk2
      have hl2 : w2.ledger = w.ledger := by rw [hp] at hl; exact hl
      refine ⟨by simp [countConfirmed, List.countP_cons], ?_, fun _ => by rw [hl2],
        .consPair b false [] .nil⟩
      intro hx
      simp [countConfirmed, List.countP_cons] at hx


theorem maybeMintAuth_gateStep (cfg : Config) (env : Env) (st : CState) (w : World)
    (b bl key : List Nat) :
    GateStep key w (maybeMintAuth cfg env st w b bl).calls
      (maybeMintAuth cfg env st w b bl).w := by
  by_cases cH : hasMintedChain w b = true
  · simp only [maybeMintAuth, if_pos cH]
    exact GateStep.hasOnly key b true rfl
  by_cases cT : st.cumulativeBuys bl < cfg.threshold
  · simp only [maybeMintAuth, if_neg cH, if_pos cT]
    exact GateStep.hasOnly key b false rfl
  by_cases cP : (mintAttempt env w b).2 = true
  · simp only [maybeMintAuth, if_neg cH, if_neg cT, if_pos cP]
    exact GateStep.mintPair key b env w _ true cP rfl
  · simp only [maybeMintAuth, if_neg cH, if_neg cT, if_neg cP]
    have cP2 : (mintAttempt env w b).2 = false := by
      revert cP; cases (mintAttempt env w b).2 <;> simp
    exact GateStep.mintPair key b env w _ false cP2 rfl

theorem maybeMint_gateStep (cfg : Config) (env : Env) (st : CState) (w : World)
    (b key : List Nat) :
    GateStep key w (maybeMintFromCumulativeBuys cfg env st w b).calls
      (maybeMintFromCumulativeBuys cfg env st w b).w := by
  by_cases cE : cfg.swapMintEnabled = false
  · simp only [maybeMintFromCumulativeBuys, if_pos cE]
    exact GateStep.empty key rfl
  by_cases cA : env.isAddress b = false ∨ b = zeroAddress
  · simp only [maybeMintFromCumulativeBuys, if_neg cE, if_pos cA]
    exact GateStep.empty key rfl
  by_cases cC : isInEligibleCohortB env.keccak b cfg.cohortEnabled
      cfg.cohortEligiblePercent cfg.cohortSalt = false
  · simp only [maybeMintFromCumulativeBuys, if_neg cE, if_neg cA, if_pos cC]
    exact GateStep.empty key rfl
  by_cases cD : (st.mintFailures (toLowerStr b)).getD 0 ≠ 0 ∧
      (env.clock w.tick : Int) - (st.mintFailures (toLowerStr b)).getD 0 <
        cfg.mintFailureCooldownMs
  · simp only [maybeMintFromCumulativeBuys, if_neg cE, if_neg cA, if_neg cC,
      if_pos cD]
    exact GateStep.empty key rfl
  by_cases cM : st.mintedCache (toLowerStr b) = true
  · by_cases cH : hasMintedChain { w with tick := w.tick + 1 } b = true
    · simp only [maybeMintFromCumulativeBuys, if_neg cE, if_neg cA, if_neg cC,
        if_neg cD, if_pos cM, if_pos cH]
      exact GateStep.hasOnly key b true rfl
    · simp only [maybeMintFromCumulativeBuys, if_neg cE, if_neg cA, if_neg cC,
        if_neg cD, if_pos cM, if_neg cH]
      exact GateStep.consHasPre key b false rfl
        (maybeMintAuth_gateStep cfg env _ _ b (toLowerStr b) key)
  · simp only [maybeMintFromCumulativeBuys, if_neg cE, if_neg cA, if_neg cC,
      if_neg cD, if_neg cM]
    exact GateStep.preWorld rfl (maybeMintAuth_gateStep cfg env st _ b (toLowerStr b) key)

theorem handleEligibleLegacy_gateStep (cfg : Config) (env : Env) (st : CState)
    (w : World) (dest key : List Nat) :
    GateStep key w (handleEligibleLegacy cfg env st w dest).calls
      (handleEligibleLegacy cfg env st w dest).w := by
  by_cases cE : cfg.legacyMintEnabled = false
  · simp only [handleEligibleLegacy, if_pos cE]
    exact GateStep.empty key rfl
  by_cases cA : env.isAddress dest = false ∨ dest = zeroAddress
  · simp only [handleEligibleLegacy, if_neg cE, if_pos cA]
    exact GateStep.empty key rfl
  by_cases cC : isInEligibleCohortB env.keccak dest cfg.cohortEnabled
      cfg.cohortEligiblePercent cfg.cohortSalt = false
  · simp only [handleEligibleLegacy, if_neg cE, if_neg cA, if_pos cC]
    exact GateStep.empty key rfl
  by_cases cM : st.mintedCache (toLowerStr dest) = true
  · simp only [handleEligibleLegacy, if_neg cE, if_neg cA, if_neg cC, if_pos cM]
    exact GateStep.empty key rfl
  by_cases cH : hasMintedChain w dest = true
  · simp only [handleEligibleLegacy, if_neg cE, if_neg cA, if_neg cC, if_neg cM,
      if_pos cH]
    exact GateStep.hasOnly key dest true rfl
  by_cases cB : env.balanceOf dest < cfg.threshold
  · simp only [handleEligibleLegacy, if_neg cE, if_neg cA, if_neg cC, if_neg cM,
      if_neg cH, if_pos cB]
    exact GateStep.hasOnly key dest false rfl
  by_cases cP : (mintAttempt env w dest).2 = true
  · simp only [handleEligibleLegacy, if_neg cE, if_neg cA, if_neg cC, if_neg cM,
      if_neg cH, if_neg cB, if_pos cP]
    exact GateStep.mintPair key dest env w _ true cP rfl
  · simp only [handleEligibleLegacy, if_neg cE, if_neg cA, if_neg cC, if_neg cM,
      if_neg cH, if_neg cB, if_neg cP]
    have cP2 : (mintAttempt env w dest).2 = false := by
      revert cP; cases (mintAttempt env w dest).2 <;> simp
    exact GateStep.mintPair key dest env w _ false cP2 rfl

theorem foldSwapLog_gateStep (cfg : Config) (env : Env) (key : List Nat)
    {w0 : World} (a : SwapFold) (e : SwapEvent)
    (h : GateStep key w0 a.calls a.w) :
    GateStep key w0 (foldSwapLog cfg env a e).calls (foldSwapLog cfg env a e).w := by
  simp only [foldSwapLog]
  by_cases ht : a.threw = true
  · simp only [if_pos ht]
    exact h
  · simp only [if_neg ht]
    by_cases hb : 0 < getTokenBoughtFromSwap cfg.tokenIs0 e.amount0 e.amount1
    · simp only [if_pos hb]
      have hg := maybeMint_gateStep cfg env
        { a.st with
          cumulativeBuys := updateFn a.st.cumulativeBuys (toLowerStr e.recipient)
            (a.st.cumulativeBuys (toLowerStr e.recipient) +
              (getTokenBoughtFromSwap cfg.tokenIs0 e.amount0 e.amount1).toNat) }
        a.w e.recipient key
      have hcomp := GateStep.comp h hg
      split_ifs <;> exact hcomp
    · simp only [if_neg hb]
      exact h

theorem foldSwapLogs_gateStep (cfg : Config) (env : Env) (key : List Nat)
    {w0 : World} (logs : List SwapEvent) :
    ∀ a : SwapFold, GateStep key w0 a.calls a.w →
      GateStep key w0 (foldSwapLogs cfg env a logs).calls
        (foldSwapLogs cfg env a logs).w := by
  induction logs with
  | nil => intro a h; exact h
  | cons e logs ih =>
    intro a h
    exact ih (foldSwapLog cfg env a e) (foldSwapLog_gateStep cfg env key a e h)

theorem foldTransferLog_gateStep (cfg : Config) (env : Env) (key : List Nat)
    {w0 : World} (a : TransferFold) (e : TransferEvent)
    (h : GateStep key w0 a.calls a.w) :
    GateStep key w0 (foldTransferLog cfg env a e).calls
      (foldTransferLog cfg env a e).w := by
  simp only [foldTransferLog]
  by_cases ht : a.threw = true
  · simp only [if_pos ht]
    exact h
  · simp only [if_neg ht]
    by_cases hleg : cfg.legacyMintEnabled = true
    · simp only [if_pos hleg]
      have hg := handleEligibleLegacy_gateStep cfg env a.st a.w e.toAddr key
      have hcomp := GateStep.comp h hg
      split_ifs <;> exact hcomp
    · simp only [if_neg hleg]
      have hg : GateStep key a.w
          (GateOut.calls { st := a.st, w := a.w, calls := [], threw := false })
          (GateOut.w { st := a.st, w := a.w, calls := [], threw := false }) :=
        GateStep.empty key rfl
      have hcomp := GateStep.comp h hg
      split_ifs <;> simpa using hcomp

theorem foldTransferLogs_gateStep (cfg : Config) (env : Env) (key : List Nat)
    {w0 : World} (logs : List TransferEvent) :
    ∀ a : TransferFold, GateStep key w0 a.calls a.w →
      GateStep key w0 (foldTransferLogs cfg env a logs).calls
        (foldTransferLogs cfg env a logs).w := by
  induction logs with
  | nil => intro a h; exact h
  | cons e logs ih =>
    intro a h
    exact ih (foldTransferLog cfg env a e) (foldTransferLog_gateStep cfg env key a e h)


theorem backfillSwapsLoop_gateStep (cfg : Config) (env : Env)
    (q : Nat → Nat → Except QueryError (List SwapEvent)) (targetN : Nat)
    (key : List Nat) {w0 : World} :
    ∀ (fuel frm : Nat) (st : CState) (w : World) (rows : List SwapRecord)
      (calls : List ExtCall), GateStep key w0 calls w →
      GateStep key w0 (backfillSwapsLoop cfg env q targetN fuel frm st w rows
        calls).calls
        (backfillSwapsLoop cfg env q targetN fuel frm st w rows calls).w := by
  intro fuel
  induction fuel with
  | zero => intro frm st w rows calls h; exact h
  | succ fuel ih =>
    intro frm st w rows calls h
    simp only [backfillSwapsLoop]
    by_cases hle : frm ≤ targetN
    · simp only [if_pos hle]
      rcases hq : (querySwapLogsFn q frm (min (frm + cfg.chunkSize - 1) targetN)).1
        with err | logs
      · simp only [hq]
        exact h
      · simp only [hq]
        have hfold := foldSwapLogs_gateStep cfg env key logs
          ⟨st, w, rows, calls, false⟩ h
        by_cases hthrew :
            (foldSwapLogs cfg env ⟨st, w, rows, calls, false⟩ logs).threw = true
        · simp only [if_pos hthrew]
          exact hfold
        · simp only [if_neg hthrew]
          exact ih _ _ _ _ _ hfold
    · simp only [if_neg hle]
      exact h

theorem backfillTransfersLoop_gateStep (cfg : Config) (env : Env)
    (q : Nat → Nat → Except QueryError (List TransferEvent)) (targetN : Nat)
    (key : List Nat) {w0 : World} :
    ∀ (fuel frm : Nat) (st : CState) (w : World) (rows : List TransferRecord)
      (calls : List ExtCall), GateStep key w0 calls w →
      GateStep key w0 (backfillTransfersLoop cfg env q targetN fuel frm st w rows
        calls).calls
        (backfillTransfersLoop cfg env q targetN fuel frm st w rows calls).w := by
  intro fuel
  induction fuel with
  | zero => intro frm st w rows calls h; exact h
  | succ fuel ih =>
    intro frm st w rows calls h
    simp only [backfillTransfersLoop]
    by_cases hle : frm ≤ targetN
    · simp only [if_pos hle]
      rcases hq : (queryTransferLogsFn q frm
          (min (frm + cfg.chunkSize - 1) targetN)).1 with err | logs
      · simp only [hq]
        exact h
      · simp only [hq]
        have hfold := foldTransferLogs_gateStep cfg env key logs
          ⟨st, w, rows, calls, false⟩ h
        by_cases hthrew :
            (foldTransferLogs cfg env ⟨st, w, rows, calls, false⟩ logs).threw = true
        · simp only [if_pos hthrew]
          exact hfold
        · simp only [if_neg hthrew]
          exact ih _ _ _ _ _ hfold
    · simp only [if_neg hle]
      exact h

theorem backfillSwaps_gateStep (cfg : Config) (env : Env)
    (q : Nat → Nat → Except QueryError (List SwapEvent)) (current : Nat)
    (st : CState) (w : World) (rows : List SwapRecord) (key : List Nat) :
    GateStep key w (backfillSwaps cfg env q current st w rows).calls
      (backfillSwaps cfg env q current st w rows).w := by
  simp only [backfillSwaps]
  by_cases hle : (current : Int) - cfg.confirmations ≤ (st.lastProcessedSwapBlock : Int)
  · simp only [if_pos hle]
    exact GateStep.empty key rfl
  · simp only [if_neg hle]
    exact backfillSwapsLoop_gateStep cfg env q _ key _ _ st w rows []
      (GateStep.empty key rfl)

theorem backfillTransfers_gateStep (cfg : Config) (env : Env)
    (q : Nat → Nat → Except QueryError (List TransferEvent)) (current : Nat)
    (st : CState) (w : World) (rows : List TransferRecord) (key : List Nat) :
    GateStep key w (backfillTransfers cfg env q current st w rows).calls
      (backfillTransfers cfg env q current st w rows).w := by
  simp only [backfillTransfers]
  by_cases hguard : cfg.legacyMintEnabled = false ∧ cfg.indexTransfers = false
  · simp only [if_pos hguard]
    exact GateStep.empty key rfl
  by_cases hle : (current : Int) - cfg.confirmations ≤
      (st.lastProcessedTransferBlock : Int)
  · simp only [if_neg hguard, if_pos hle]
    exact GateStep.empty key rfl
  · simp only [if_neg hguard, if_neg hle]
    exact backfillTransfersLoop_gateStep cfg env q _ key _ _ st w rows []
      (GateStep.empty key rfl)

theorem runControllerPass_gateStep (cfg : Config) (env : Env) (key : List Nat)
    {w0 : World} (s : SysState) (p : Pass) (h : GateStep key w0 s.calls s.w) :
    GateStep key w0 (runControllerPass cfg env s p).calls
      (runControllerPass cfg env s p).w := by
  simp only [runControllerPass]
  have ht := backfillTransfers_gateStep cfg env p.qt p.current s.st s.w s.trows key
  have h1 := GateStep.comp h ht
  by_cases habort :
      (backfillTransfers cfg env p.qt p.current s.st s.w s.trows).aborted = true
  · simp only [if_pos habort]
    exact h1
  · simp only [if_neg habort]
    have hb := backfillSwaps_gateStep cfg env p.qs p.current
      (backfillTransfers cfg env p.qt p.current s.st s.w s.trows).st
      (backfillTransfers cfg env p.qt p.current s.st s.w s.trows).w s.rows key
    have h2 := GateStep.comp h1 hb
    exact h2

theorem runControllerPasses_gateStep (cfg : Config) (env : Env) (key : List Nat)
    {w0 : World} (ps : List Pass) :
    ∀ s : SysState, GateStep key w0 s.calls s.w →
      GateStep key w0 (runControllerPasses cfg env ps s).calls
        (runControllerPasses cfg env ps s).w := by
  induction ps with
  | nil => intro s h; exact h
  | cons p ps ih =>
    intro s h
    exact ih (runControllerPass cfg env s p)
      (runControllerPass_gateStep cfg env key s p h)

/-- C1: across any sequence of backfill passes (each folding any swap and
transfer events, with mint submissions succeeding or failing arbitrarily),
the authoritative ledger — in which `issue` fails for an already-issued
wallet and `hasIssued` reflects confirmed issuances — records at most one
confirmed issuance per wallet, and every mint submission is immediately
preceded by an authoritative `hasMinted` check that returned false. -/
theorem claim_C1 (cfg : Config) (env : Env) (ps : List Pass) (st : CState)
    (w : World) (rows : List SwapRecord) (trows : List TransferRecord)
    (key : List Nat) :
    countConfirmed key
      (runControllerPasses cfg env ps ⟨st, w, rows, trows, []⟩).calls ≤ 1 ∧
    MintGuarded (runControllerPasses cfg env ps ⟨st, w, rows, trows, []⟩).calls := by
  have h := runControllerPasses_gateStep cfg env key ps ⟨st, w, rows, trows, []⟩
    (GateStep.empty key rfl)
  exact ⟨h.1, h.2.2.2⟩


/- ### C2: the fetcher drops the upper half of a bisected range -/

/-- One swap event located at block 101. -/
def blockEvent : SwapEvent :=
  { blockNumber := 101, txHash := 7, logIndex := 0, sender := [48, 120, 99],
    recipient := [48, 120, 97], amount0 := -5, amount1 := 5, sqrtPriceX96 := 0,
    liquidity := 0, tick := 0 }

/-- Provider oracle for a chain whose only swap event sits at block 101: the
query for `[100, 101]` fails once with a non-rate-limit error, every other
range succeeds and returns exactly the events it covers. -/
def flakyOracle : Nat → Nat → Except QueryError (List SwapEvent) :=
  fun f t =>
    if f = 100 ∧ t = 101 then .error .other
    else .ok (if f ≤ 101 ∧ 101 ≤ t then [blockEvent] else [])

/-- Configuration for the lost-event scenario (no confirmation margin). -/
def cfgC2 : Config := { cfgFold with confirmations := 0 }

/-- Controller state whose swap cursor stands at block 99. -/
def stC2 : CState := { st0 with lastProcessedSwapBlock := 99 }

/-- C2 fails on the code: on the range `[100, 101]` whose full-range query
fails once (non-rate-limit), the fetcher bisects, succeeds on the lower half
`[100, 100]` and returns its (empty) result as the result of the whole
invocation — the event at block 101 is missing; the upper half is never
queried.  Worse, `backfillSwaps` then persists the cursor at 101, so the
block-101 event is skipped forever and never recorded. -/
theorem claim_C2 :
    flakyOracle 100 101 = .error .other ∧
    100 ≤ blockEvent.blockNumber ∧ blockEvent.blockNumber ≤ 101 ∧
    (querySwapLogsFn flakyOracle 100 101).1 = .ok [] ∧
    (backfillSwaps cfgC2 envStd flakyOracle 101 stC2 w0
      []).st.lastProcessedSwapBlock = 101 ∧
    (backfillSwaps cfgC2 envStd flakyOracle 101 stC2 w0 []).rows = [] ∧
    (backfillSwaps cfgC2 envStd flakyOracle 101 stC2 w0 []).aborted = false := by
  have hq101 : querySwapLogsFn flakyOracle 100 101 =
      (.ok [], [.attempt 100 101 false, .sleepMs 300, .attempt 100 100 true]) := by
    rw [querySwapLogsFn]
    norm_num [flakyOracle]
    rw [querySwapLogsFn]
    norm_num [flakyOracle]
  have hback : backfillSwaps cfgC2 envStd flakyOracle 101 stC2 w0 [] =
      ⟨{ stC2 with lastProcessedSwapBlock := 101 }, w0, [], [], false⟩ := by
    have hcfg : cfgC2.confirmations = 0 := rfl
    have hcur : stC2.lastProcessedSwapBlock = 99 := rfl
    have hchunk : cfgC2.chunkSize = 1000 := rfl
    simp only [backfillSwaps, hcfg, hcur]
    norm_num
    rw [show Int.toNat 101 = 101 from rfl]
    norm_num
    rw [show (2 : Nat) = 1 + 1 from rfl, backfillSwapsLoop]
    norm_num [hchunk]
    simp only [hq101]
    simp only [foldSwapLogs, List.foldl_nil]
    norm_num
    rw [show (1 : Nat) = 0 + 1 from rfl, backfillSwapsLoop]
    norm_num
  refine ⟨rfl, by decide, by decide, by simp [hq101], ?_, ?_, ?_⟩ <;> simp [hback]

end RewardController
